import Mathlib

/-!
# AgentGuard core — shallow embedding and verification

A shallow embedding of the decision core of the AgentGuard repository:

* `Sha256` — the SHA-256 digest (FIPS 180-4) over UTF-8 bytes, the function
  `node:crypto` computes for `createHash('sha256').update(s).digest('hex')`;
  the audit-ledger hashes bottom out in it.
* `Jv`, `sortObject`, `canonicalize`, `computeEventHash` — from
  `apps/api/src/lib/hashChain.ts`.
* `appendAuditEvent`, `verifyHashChain` — from the same file; `replayTimeline`
  from the forensics replay route.
* `evaluatePolicy` — from `apps/api/src/lib/policyEngine.ts`.
* `requiresHumanApproval`, `computeRiskScore` — from `apps/api/src/lib/risk.ts`.
* the baseline-derived signals, the approval gate and the playbook dispatch —
  from `apps/api/src/services/actionService.ts`, `playbookService.ts` and the
  approvals router.

JavaScript numbers are embedded as `ℚ` (the code only ever adds, divides and
compares values well inside the exact float range), machine words as `Nat`
reduced mod `2^32`, `Date` values as epoch milliseconds (`ℤ`) where ordering
matters and as their ISO string where they are hashed, and JSON object values
as finite field lists in insertion order.
-/

set_option maxRecDepth 400000

namespace AgentGuard

/-- Lowercase hexadecimal digit for a value below 16. -/
def hexDigit (n : Nat) : Char := if n < 10 then Char.ofNat (48 + n) else Char.ofNat (87 + n)

namespace Sha256

/-- Truncate to a 32-bit word. -/
def w32 (x : Nat) : Nat := x % 4294967296

/-- Right-rotation of a 32-bit word. -/
def rotr (n x : Nat) : Nat := w32 ((x >>> n) ||| (x <<< (32 - n)))

def ch (x y z : Nat) : Nat := (x &&& y) ^^^ ((x ^^^ 4294967295) &&& z)

def maj (x y z : Nat) : Nat := (x &&& y) ^^^ (x &&& z) ^^^ (y &&& z)

def bigS0 (x : Nat) : Nat := rotr 2 x ^^^ rotr 13 x ^^^ rotr 22 x

def bigS1 (x : Nat) : Nat := rotr 6 x ^^^ rotr 11 x ^^^ rotr 25 x

def smallS0 (x : Nat) : Nat := rotr 7 x ^^^ rotr 18 x ^^^ (x >>> 3)

def smallS1 (x : Nat) : Nat := rotr 17 x ^^^ rotr 19 x ^^^ (x >>> 10)

/-- The 64 SHA-256 round constants (FIPS 180-4 §4.2.2), written in decimal. -/
def K : List Nat :=
  [1116352408, 1899447441, 3049323471, 3921009573, 961987163, 1508970993,
   2453635748, 2870763221, 3624381080, 310598401, 607225278, 1426881987,
   1925078388, 2162078206, 2614888103, 3248222580, 3835390401, 4022224774,
   264347078, 604807628, 770255983, 1249150122, 1555081692, 1996064986,
   2554220882, 2821834349, 2952996808, 3210313671, 3336571891, 3584528711,
   113926993, 338241895, 666307205, 773529912, 1294757372, 1396182291,
   1695183700, 1986661051, 2177026350, 2456956037, 2730485921, 2820302411,
   3259730800, 3345764771, 3516065817, 3600352804, 4094571909, 275423344,
   430227734, 506948616, 659060556, 883997877, 958139571, 1322822218,
   1537002063, 1747873779, 1955562222, 2024104815, 2227730452, 2361852424,
   2428436474, 2756734187, 3204031479, 3329325298]

/-- The eight initial hash values (FIPS 180-4 §5.3.3), written in decimal. -/
def H0 : List Nat :=
  [1779033703, 3144134277, 1013904242, 2773480762,
   1359893119, 2600822924, 528734635, 1541459225]

/-- 8-byte big-endian encoding of the 64-bit message bit length. -/
def be64 (n : Nat) : List Nat :=
  [(n >>> 56) % 256, (n >>> 48) % 256, (n >>> 40) % 256, (n >>> 32) % 256,
   (n >>> 24) % 256, (n >>> 16) % 256, (n >>> 8) % 256, n % 256]

/-- SHA-256 padding: append `0x80`, zero bytes, then the bit length, to a 64-byte multiple. -/
def pad (msg : List Nat) : List Nat :=
  msg ++ 0x80 :: List.replicate ((64 - ((msg.length + 9) % 64)) % 64) 0 ++ be64 (8 * msg.length)

/-- Big-endian 32-bit words from a byte sequence. -/
def toWords : List Nat → List Nat
  | b0 :: b1 :: b2 :: b3 :: rest =>
      ((b0 <<< 24) ||| (b1 <<< 16) ||| (b2 <<< 8) ||| b3) :: toWords rest
  | _ => []

/-- Extend the message schedule; `acc` holds the words produced so far, most recent first. -/
def extendW : Nat → List Nat → List Nat
  | 0, acc => acc.reverse
  | fuel + 1, acc =>
      extendW fuel
        (w32 (smallS1 (acc.getD 1 0) + acc.getD 6 0 + smallS0 (acc.getD 14 0) + acc.getD 15 0)
          :: acc)

/-- The eight working variables of the compression function. -/
structure St where
  a : Nat
  b : Nat
  c : Nat
  d : Nat
  e : Nat
  f : Nat
  g : Nat
  hh : Nat

/-- One compression round, fed the round constant paired with the schedule word. -/
def round (s : St) (kw : Nat × Nat) : St :=
  let t1 := w32 (s.hh + bigS1 s.e + ch s.e s.f s.g + kw.1 + kw.2)
  let t2 := w32 (bigS0 s.a + maj s.a s.b s.c)
  ⟨w32 (t1 + t2), s.a, s.b, s.c, w32 (s.d + t1), s.e, s.f, s.g⟩

/-- Compress one 64-byte block into the running 8-word state. -/
def compressBlock (hs : List Nat) (block : List Nat) : List Nat :=
  let w := extendW 48 (toWords block).reverse
  let s0 : St :=
    ⟨hs.getD 0 0, hs.getD 1 0, hs.getD 2 0, hs.getD 3 0,
     hs.getD 4 0, hs.getD 5 0, hs.getD 6 0, hs.getD 7 0⟩
  let s := (K.zip w).foldl round s0
  List.zipWith (fun x y => w32 (x + y)) hs [s.a, s.b, s.c, s.d, s.e, s.f, s.g, s.hh]

/-- Split the padded message into 64-byte blocks (fuel-driven, fuel bounds the block count). -/
def chunksAux : Nat → List Nat → List (List Nat)
  | 0, _ => []
  | _, [] => []
  | fuel + 1, xs => xs.take 64 :: chunksAux fuel (xs.drop 64)

def chunks (xs : List Nat) : List (List Nat) := chunksAux xs.length xs

/-- The eight 32-bit words of the SHA-256 digest of a byte sequence. -/
def sha256Words (msg : List Nat) : List Nat :=
  (chunks (pad msg)).foldl compressBlock H0

def hex8 (w : Nat) : List Char :=
  [hexDigit ((w >>> 28) &&& 15), hexDigit ((w >>> 24) &&& 15), hexDigit ((w >>> 20) &&& 15),
   hexDigit ((w >>> 16) &&& 15), hexDigit ((w >>> 12) &&& 15), hexDigit ((w >>> 8) &&& 15),
   hexDigit ((w >>> 4) &&& 15), hexDigit (w &&& 15)]

/-- UTF-8 byte encoding of one code point. -/
def utf8Encode (c : Nat) : List Nat :=
  if c < 0x80 then [c]
  else if c < 0x800 then [0xC0 ||| (c >>> 6), 0x80 ||| (c &&& 0x3F)]
  else if c < 0x10000 then
    [0xE0 ||| (c >>> 12), 0x80 ||| ((c >>> 6) &&& 0x3F), 0x80 ||| (c &&& 0x3F)]
  else
    [0xF0 ||| (c >>> 18), 0x80 ||| ((c >>> 12) &&& 0x3F), 0x80 ||| ((c >>> 6) &&& 0x3F),
     0x80 ||| (c &&& 0x3F)]

/-- UTF-8 bytes of a string. -/
def strBytes (s : String) : List Nat := (s.toList.map (fun c => utf8Encode c.toNat)).flatten

/-- Lowercase hex digest of a string — node's `createHash('sha256').update(s).digest('hex')`. -/
def sha256Hex (s : String) : String := ⟨((sha256Words (strBytes s)).map hex8).flatten⟩

end Sha256

/-! ## JSON values and canonicalization (`apps/api/src/lib/hashChain.ts`)

A JSON value as the ledger code manipulates it. Object fields are kept as a
list in insertion order, mirroring a JavaScript object; numbers are embedded
as integers (every number the ledger ever hashes is one). -/

inductive Jv where
  | null : Jv
  | bool (b : Bool) : Jv
  | num (n : Int) : Jv
  | str (s : String) : Jv
  | arr (elems : List Jv) : Jv
  | obj (fields : List (String × Jv)) : Jv
deriving Repr

/-- Lexicographic comparison of character lists — the order JavaScript's
default `Array.prototype.sort` comparator puts strings in (it compares UTF-16
code units; on the keys the ledger hashes these coincide with code points). -/
def charListLe : List Char → List Char → Bool
  | [], _ => true
  | _ :: _, [] => false
  | c :: cs, d :: ds =>
      if c.toNat < d.toNat then true
      else if d.toNat < c.toNat then false
      else charListLe cs ds

/-- String comparison for `Object.keys(obj).sort()`. -/
def strLe (a b : String) : Bool := charListLe a.toList b.toList

/-- Field order used by the key sort. -/
def fieldLe (a b : String × Jv) : Prop := strLe a.1 b.1 = true

instance : DecidableRel fieldLe :=
  fun a b => inferInstanceAs (Decidable (strLe a.1 b.1 = true))

/-- Sort a field list by key — a stable comparison sort, as
`Object.keys(obj).sort()` followed by rebuilding the object. -/
def sortFields (fs : List (String × Jv)) : List (String × Jv) :=
  List.insertionSort fieldLe fs

mutual

/-- `sortObject` from `hashChain.ts`: recursively sort object keys; arrays keep
their order. -/
def sortObject : Jv → Jv
  | .null => .null
  | .bool b => .bool b
  | .num n => .num n
  | .str s => .str s
  | .arr xs => .arr (sortList xs)
  | .obj fs => .obj (sortFields (sortPairs fs))
termination_by structural v => v

def sortList : List Jv → List Jv
  | [] => []
  | x :: xs => sortObject x :: sortList xs
termination_by structural xs => xs

def sortPairs : List (String × Jv) → List (String × Jv)
  | [] => []
  | p :: fs => (p.1, sortObject p.2) :: sortPairs fs
termination_by structural fs => fs

end

/-- Decimal digits of a natural number, most significant first (fuel-driven;
`fuel ≥ n` suffices). -/
def natDigits : Nat → Nat → List Char
  | 0, _ => []
  | fuel + 1, n => if n = 0 then [] else natDigits fuel (n / 10) ++ [Char.ofNat (48 + n % 10)]

/-- `String(n)` for a natural number. -/
def renderNat (n : Nat) : List Char := if n = 0 then ['0'] else natDigits n n

/-- `String(i)` for an integer-valued JavaScript number. -/
def renderInt (i : Int) : List Char :=
  if i < 0 then '-' :: renderNat i.natAbs else renderNat i.natAbs

/-- `JSON.stringify` escaping of one string character. -/
def escapeChar (c : Char) : List Char :=
  if c = '"' then ['\\', '"']
  else if c = '\\' then ['\\', '\\']
  else if c.toNat = 8 then ['\\', 'b']
  else if c.toNat = 9 then ['\\', 't']
  else if c.toNat = 10 then ['\\', 'n']
  else if c.toNat = 12 then ['\\', 'f']
  else if c.toNat = 13 then ['\\', 'r']
  else if c.toNat < 32 then ['\\', 'u', '0', '0', hexDigit (c.toNat >>> 4), hexDigit (c.toNat &&& 15)]
  else [c]

/-- `JSON.stringify` rendering of a string literal, quotes included. -/
def renderString (s : String) : List Char :=
  '"' :: (s.toList.map escapeChar).flatten ++ ['"']

mutual

/-- `JSON.stringify` of a JSON value, as a character list. -/
def render : Jv → List Char
  | .num n => renderInt n
  | .str s => renderString s
  | .arr xs => '[' :: renderElems xs ++ [']']
  | .obj fs => '\x7b' :: renderFields fs ++ ['\x7d']
  | .bool false => ['f', 'a', 'l', 's', 'e']
  | .bool true => ['t', 'r', 'u', 'e']
  | .null => ['n', 'u', 'l', 'l']
termination_by structural v => v

/-- Comma-separated renderings of array elements. -/
def renderElems : List Jv → List Char
  | [] => []
  | [x] => render x
  | x :: xs => render x ++ ',' :: renderElems xs
termination_by structural xs => xs

/-- Comma-separated `"key":value` renderings of object fields. -/
def renderFields : List (String × Jv) → List Char
  | [] => []
  | [p] => renderString p.1 ++ ':' :: render p.2
  | p :: fs => renderString p.1 ++ ':' :: render p.2 ++ ',' :: renderFields fs
termination_by structural fs => fs

end

/-- `canonicalize(value) = JSON.stringify(sortObject(value))`. -/
def canonicalize (v : Jv) : String := ⟨render (sortObject v)⟩

/-- `computeEventHash(prevHash, payload) = sha256(prevHash + canonicalize(payload))` in hex. -/
def computeEventHash (prevHash : String) (payload : Jv) : String :=
  Sha256.sha256Hex (prevHash ++ canonicalize payload)

/-- A concrete SHA-256 collision: two distinct strings with equal digests. -/
def Sha256Collision (a b : String) : Prop :=
  a ≠ b ∧ Sha256.sha256Hex a = Sha256.sha256Hex b

/-- Decimal digit test (analysis of the `render` grammar). -/
def isDigit (c : Char) : Bool := 48 ≤ c.toNat && c.toNat ≤ 57

/-- Whether a character list starts with a decimal digit; a rendered number
followed by such a continuation would extend the digit run. -/
def digitStart : List Char → Bool
  | [] => false
  | c :: _ => isDigit c

/-- Value of a decimal digit string, with accumulator. -/
def digitsValAux (acc : Nat) : List Char → Nat
  | [] => acc
  | c :: cs => digitsValAux (10 * acc + (c.toNat - 48)) cs

/-- Value of a decimal digit string. -/
def digitsVal (l : List Char) : Nat := digitsValAux 0 l

/-- Value of a lowercase hexadecimal digit (inverse of `hexDigit`). -/
def hexVal (c : Char) : Nat := if c.toNat ≤ 57 then c.toNat - 48 else c.toNat - 87

/-- Character denoted by a two-character JSON escape (inverse of the
two-character arm of `escapeChar`). -/
def unescCode (d : Char) : Char :=
  if d = 'b' then Char.ofNat 8
  else if d = 't' then Char.ofNat 9
  else if d = 'n' then Char.ofNat 10
  else if d = 'f' then Char.ofNat 12
  else if d = 'r' then Char.ofNat 13
  else d

/-- Decode one string character from the output of `escapeChar`; left inverse
of `escapeChar` on any continuation. -/
def unescape : List Char → Option (Char × List Char)
  | [] => none
  | c :: rest =>
      if c ≠ '\\' then some (c, rest)
      else
        match rest with
        | [] => none
        | d :: rest2 =>
            if d = 'u' then
              match rest2 with
              | _ :: _ :: h1 :: h2 :: rest3 =>
                  some (Char.ofNat (16 * hexVal h1 + hexVal h2), rest3)
              | _ => none
            else some (unescCode d, rest2)

/-- The characters a rendered JSON value can start with: they never clash with
the structural delimiters `]`, `,`, `\x7d`, `:`. -/
def headOk (c : Char) : Prop :=
  c = 'n' ∨ c = 't' ∨ c = 'f' ∨ c = '-' ∨ isDigit c = true ∨ c = '"' ∨ c = '[' ∨ c = '\x7b'

/-- Remove the first field stored under a key. -/
def eraseKey : List (String × Jv) → String → List (String × Jv)
  | [], _ => []
  | p :: fs, k => if p.1 == k then fs else p :: eraseKey fs k

mutual

/-- Key-order equivalence: the relation "equal as key-value maps, field
insertion order ignored" between JSON values (arrays keep their order). -/
def koeq : Jv → Jv → Bool
  | .null, .null => true
  | .bool a, .bool b => a == b
  | .num a, .num b => a == b
  | .str a, .str b => a == b
  | .arr xs, .arr ys => koeqList xs ys
  | .obj fs, .obj gs => koeqFields fs gs
  | _, _ => false
termination_by structural v => v

def koeqList : List Jv → List Jv → Bool
  | [], ys => ys.isEmpty
  | x :: xs, ys =>
      match ys with
      | [] => false
      | y :: ys' => koeq x y && koeqList xs ys'
termination_by structural xs => xs

def koeqFields : List (String × Jv) → List (String × Jv) → Bool
  | [], gs => gs.isEmpty
  | (k, v) :: fs, gs =>
      match List.lookup k gs with
      | some w => koeq v w && koeqFields fs (eraseKey gs k)
      | none => false
termination_by structural fs => fs

end

def keysUnique : List String → Bool
  | [] => true
  | k :: ks => !(ks.contains k) && keysUnique ks

mutual

/-- Well-formedness of an embedded JSON value as the image of a JavaScript
object: every object level has pairwise-distinct keys. -/
def jvWF : Jv → Bool
  | .null => true
  | .bool _ => true
  | .num _ => true
  | .str _ => true
  | .arr xs => jvWFList xs
  | .obj fs => keysUnique (fs.map Prod.fst) && jvWFFields fs
termination_by structural v => v

def jvWFList : List Jv → Bool
  | [] => true
  | x :: xs => jvWF x && jvWFList xs
termination_by structural xs => xs

def jvWFFields : List (String × Jv) → Bool
  | [] => true
  | p :: fs => jvWF p.2 && jvWFFields fs
termination_by structural fs => fs

end

/-! ## Audit ledger (`apps/api/src/lib/hashChain.ts`) -/

inductive Decision where
  | ALLOW : Decision
  | BLOCK : Decision
deriving Repr, DecidableEq

def Decision.label : Decision → String
  | .ALLOW => "ALLOW"
  | .BLOCK => "BLOCK"

/-- `AuditEventInput` — optional fields are `Option` with the `??` defaults
applied at use sites, exactly as in the source. `createdAt` is the ISO string
of the `Date`. -/
structure AuditEventInput where
  workspaceId : String
  agentId : Option String := none
  tool : String
  action : String
  resource : Option String := none
  decision : Decision
  reason : String
  metadata : Option (List (String × Jv)) := none
  anomalyFlagged : Option Bool := none
  createdAt : Option String := none
deriving Repr

def optStr : Option String → Jv
  | some s => .str s
  | none => .null

/-- `createEventHashPayload`: the fixed-field-order object that gets hashed. -/
def createEventHashPayload (e : AuditEventInput) (createdAt : String) : Jv :=
  .obj [("workspace_id", .str e.workspaceId),
        ("agent_id", optStr e.agentId),
        ("tool", .str e.tool),
        ("action", .str e.action),
        ("resource", optStr e.resource),
        ("decision", .str e.decision.label),
        ("reason", .str e.reason),
        ("metadata", .obj (e.metadata.getD [])),
        ("anomaly_flagged", .bool (e.anomalyFlagged.getD false)),
        ("created_at", .str createdAt)]

/-- A persisted `auditLogEvent` row. -/
structure StoredEvent where
  workspaceId : String
  agentId : Option String
  tool : String
  action : String
  resource : Option String
  decision : Decision
  reason : String
  metadata : List (String × Jv)
  anomalyFlagged : Bool
  prevHash : String
  hash : String
  createdAt : String
deriving Repr

/-- The payload `verifyHashChain` rebuilds from a stored event's own fields. -/
def StoredEvent.hashPayload (ev : StoredEvent) : Jv :=
  createEventHashPayload
    { workspaceId := ev.workspaceId, agentId := ev.agentId, tool := ev.tool,
      action := ev.action, resource := ev.resource, decision := ev.decision,
      reason := ev.reason, metadata := some ev.metadata,
      anomalyFlagged := some ev.anomalyFlagged }
    ev.createdAt

/-- `appendAuditEvent` as a pure state transition. `state` is the
`auditChainState.lastHash` for the workspace (`none` when the row is absent),
`now` the current time's ISO string; the transaction returns the created event
and advances the tail to its hash. -/
def appendAuditEvent (state : Option String) (e : AuditEventInput) (now : String) :
    StoredEvent × String :=
  let prevHash := state.getD "GENESIS"
  let createdAt := e.createdAt.getD now
  let hash := computeEventHash prevHash (createEventHashPayload e createdAt)
  (⟨e.workspaceId, e.agentId, e.tool, e.action, e.resource, e.decision, e.reason,
     e.metadata.getD [], e.anomalyFlagged.getD false, prevHash, hash, createdAt⟩, hash)

/-- Sequential appends to one workspace: each call reads the tail the previous
call wrote. -/
def appendAll (state : Option String) : List (AuditEventInput × String) → List StoredEvent
  | [] => []
  | (e, now) :: rest =>
      let r := appendAuditEvent state e now
      r.1 :: appendAll (some r.2) rest

/-- A chain produced purely by sequential appends starting from the absent
chain state (`GENESIS` seed). -/
def buildChain (inputs : List (AuditEventInput × String)) : List StoredEvent :=
  appendAll none inputs

/-- The `verifyHashChain` loop with its running `lastHash`. -/
def verifyFrom (lastHash : String) : List StoredEvent → Bool
  | [] => true
  | ev :: rest =>
      if ev.prevHash ≠ lastHash then false
      else if ev.hash ≠ computeEventHash ev.prevHash ev.hashPayload then false
      else verifyFrom ev.hash rest

def verifyHashChain (events : List StoredEvent) : Bool := verifyFrom "GENESIS" events

/-- Per-event `chainIntegrity` verdicts of `GET /forensics/replay` (`true` is
`OK`): the first event is unconditionally `OK`; a later event is checked only
against the previous event's stored hash. -/
def replayAux (previousHash : Option String) : List StoredEvent → List Bool
  | [] => []
  | ev :: rest =>
      (match previousHash with
       | none => true
       | some p => ev.prevHash == p) :: replayAux (some ev.hash) rest

def replayTimeline (events : List StoredEvent) : List Bool := replayAux none events

/-- `integrityFailures` is bumped once per `BROKEN` verdict. -/
def integrityFailures (events : List StoredEvent) : Nat := (replayTimeline events).count false

/-- `chainStatus: integrityFailures === 0 ? 'HEALTHY' : 'BROKEN'`. -/
def chainStatusHealthy (events : List StoredEvent) : Bool := integrityFailures events == 0

/-- The chain-linkage property: the first event's `prevHash` is `seed`, then
each event's `prevHash` is its predecessor's `hash`. -/
def linkedFrom (seed : String) : List StoredEvent → Prop
  | [] => True
  | ev :: rest => ev.prevHash = seed ∧ linkedFrom ev.hash rest

/-! ## Policy engine (`apps/api/src/lib/policyEngine.ts`) -/

inductive PolicyMode where
  | STRICT : PolicyMode
  | BALANCED : PolicyMode
deriving Repr, DecidableEq

/-- A normalized rule set (the zod schema's output shape; `normalizePolicyRules`
is the identity on it). -/
structure PolicyRules where
  mode : PolicyMode
  allow_actions : List String
  deny_actions : List String
  allow_tools : List String
  deny_tools : List String
  require_approval_actions : List String
deriving Repr, DecidableEq

structure PolicyEvaluationContext where
  tool : String
  action : String
  resource : Option String := none
  burstRate : Option ℚ := none
deriving Repr

structure PolicyEvaluationResult where
  decision : Decision
  reason : String
  signals : List String
deriving Repr, DecidableEq

def HIGH_RISK_ACTIONS : List String :=
  ["delete", "drop", "transfer_funds", "write_prod", "admin_override", "terminate"]

/-- `String.prototype.toLowerCase()` restricted to ASCII, which is where every
membership test against the high-risk vocabulary lives (the vocabulary itself
is lowercase ASCII). -/
def jsToLower (s : String) : String :=
  ⟨s.toList.map fun c => if 'A' ≤ c ∧ c ≤ 'Z' then Char.ofNat (c.toNat + 32) else c⟩

/-- `evaluatePolicy`. The signal set is built in insertion order
(`high_risk_action`, `unknown_tool`, `burst_rate`, each added at most once),
then the deny checks, then the strict allowlist checks. `toLower` embeds
JavaScript's `toLowerCase` (they agree on the ASCII actions involved). -/
def evaluatePolicy (rules : PolicyRules) (ctx : PolicyEvaluationContext) :
    PolicyEvaluationResult :=
  let signals : List String :=
    (if HIGH_RISK_ACTIONS.contains (jsToLower ctx.action) then ["high_risk_action"] else []) ++
    (if rules.allow_tools.length > 0 ∧ ¬rules.allow_tools.contains ctx.tool then
      ["unknown_tool"] else []) ++
    (match ctx.burstRate with
     | some b => if b ≥ 5 then ["burst_rate"] else []
     | none => [])
  if rules.deny_actions.contains ctx.action then
    ⟨.BLOCK, "action_denied_by_policy", signals⟩
  else if rules.deny_tools.contains ctx.tool then
    ⟨.BLOCK, "tool_denied_by_policy", signals⟩
  else if rules.mode = .STRICT ∧ rules.allow_actions.length > 0 ∧
      ¬rules.allow_actions.contains ctx.action then
    ⟨.BLOCK, "action_not_allowlisted_strict", signals⟩
  else if rules.mode = .STRICT ∧ rules.allow_tools.length > 0 ∧
      ¬rules.allow_tools.contains ctx.tool then
    ⟨.BLOCK, "tool_not_allowlisted_strict", signals⟩
  else
    ⟨.ALLOW, "allowed_by_policy_engine", signals⟩

/-! ## Risk scoring (`apps/api/src/lib/risk.ts`) -/

def requiresHumanApproval (action : String) (rules : PolicyRules) : Bool :=
  HIGH_RISK_ACTIONS.contains (jsToLower action) || rules.require_approval_actions.contains action

structure RiskScoreContext where
  baselineAvgRiskScore : Option ℚ := none
  baselineAvgPerMinute : Option ℚ := none
  burstRate : Option ℚ := none
  isOffHours : Option Bool := none
  isNewPattern : Option Bool := none
deriving Repr

/-- `Math.round` on the nonnegative values it is fed: floor of `x + 1/2`. -/
def jsRound (x : ℚ) : ℤ := ⌊x + 1 / 2⌋

/-- `computeRiskScore`, additive term by additive term in source order, with
the final clamp to `[0, 100]`. -/
def computeRiskScore (signals : List String) (action : String) (decision : Decision)
    (context : RiskScoreContext) : ℚ :=
  let score : ℚ := 5
  let score := if HIGH_RISK_ACTIONS.contains (jsToLower action) then score + 45 else score
  let score := if signals.contains "unknown_tool" then score + 20 else score
  let score := if signals.contains "burst_rate" then score + 20 else score
  let score := if signals.contains "behavior_drift" then score + 15 else score
  let score := if signals.contains "off_hours_execution" then score + 10 else score
  let score := if signals.contains "new_action_pattern" then score + 12 else score
  let score := if decision = .BLOCK then score + 10 else score
  let score :=
    if context.burstRate.getD 0 > 0 ∧ context.baselineAvgPerMinute.getD 0 > 0 then
      let multiplier := context.burstRate.getD 0 / max 1 (context.baselineAvgPerMinute.getD 0)
      if multiplier ≥ 3 then score + 12
      else if multiplier ≥ 2 then score + 6
      else score
    else score
  let score :=
    if context.baselineAvgRiskScore.getD 0 > 0 ∧ decision = .ALLOW then
      score + (jsRound (min 8 (context.baselineAvgRiskScore.getD 0 / 20)) : ℚ)
    else score
  let score := if context.isOffHours.getD false then score + 5 else score
  let score := if context.isNewPattern.getD false then score + 5 else score
  max 0 (min 100 score)

/-! ## Baseline-derived signals (`actionService.ts`, the block after policy
evaluation) -/

structure Baseline where
  avgRiskScore : ℚ
  avgPerMinute : ℚ
  sampleCount : Nat
  lastSeenAt : ℤ
deriving Repr, DecidableEq

/-- `baselineAvgPerMinute > 0 ? burstRate / Math.max(1, baselineAvgPerMinute) : 1`. -/
def burstMultiplier (baseline : Option Baseline) (burstRate : ℚ) : ℚ :=
  let avg := (baseline.map (·.avgPerMinute)).getD 0
  if avg > 0 then burstRate / max 1 avg else 1

/-- The three signals pushed from the pre-update baseline, in push order. -/
def deriveContextSignals (baseline : Option Baseline) (burstRate : ℚ) (isOffHours : Bool)
    (action : String) : List String :=
  let sampleCount := (baseline.map (·.sampleCount)).getD 0
  (if sampleCount ≥ 5 ∧ burstMultiplier baseline burstRate ≥ 2 then ["behavior_drift"] else []) ++
  (if sampleCount < 3 then ["new_action_pattern"] else []) ++
  (if isOffHours ∧ HIGH_RISK_ACTIONS.contains (jsToLower action) then ["off_hours_execution"]
   else [])

/-! ## Approval requests (`actionService.ts` consumption block, approvals
router, playbook `CREATE_APPROVAL`) -/

inductive ApprovalStatus where
  | PENDING : ApprovalStatus
  | APPROVED : ApprovalStatus
  | REJECTED : ApprovalStatus
  | EXPIRED : ApprovalStatus
deriving Repr, DecidableEq

/-- An `actionApprovalRequest` row; times are epoch milliseconds. -/
structure ApprovalRequest where
  id : String
  workspaceId : String
  agentId : String
  tool : String
  action : String
  resource : Option String
  metadata : List (String × Jv)
  status : ApprovalStatus
  riskScore : Option ℚ
  requestedBy : String
  expiresAt : ℤ
  consumedAt : Option ℤ
  resolvedByUserId : Option String
  resolvedAt : Option ℤ
  resolutionNote : Option String
deriving Repr

abbrev ApprovalStore := List ApprovalRequest

def APPROVAL_TTL_MS : ℤ := 15 * 60 * 1000

/-- The `findFirst` filter of the consumption test: same id, workspace and
agent, `status: APPROVED`, `consumedAt: null`, `expiresAt: { gt: now }`. -/
def approvedMatch (wsId agId reqId : String) (now : ℤ) (r : ApprovalRequest) : Bool :=
  r.id == reqId && r.workspaceId == wsId && r.agentId == agId &&
    r.status == .APPROVED && r.consumedAt.isNone && decide (now < r.expiresAt)

def findApproved (store : ApprovalStore) (wsId agId reqId : String) (now : ℤ) :
    Option ApprovalRequest :=
  store.find? (approvedMatch wsId agId reqId now)

structure GateOutcome where
  decision : Decision
  reason : String
  signals : List String
  approvalId : Option String
  store : ApprovalStore
deriving Repr

/-- The approval-gate block of `evaluateAndLogAction`: it runs only when the
decision so far is `ALLOW` and the action requires approval; a supplied id is
consumed when the `findFirst` filter matches, otherwise the decision is
downgraded and a fresh `PENDING` request (`freshId`) is created. -/
def approvalGate (decision : Decision) (reason : String) (signals : List String)
    (rules : PolicyRules) (store : ApprovalStore)
    (wsId agId tool action : String) (resource : Option String)
    (metadata : List (String × Jv)) (approvalRequestId : Option String)
    (requestedBy : Option String) (now : ℤ) (freshId : String) : GateOutcome :=
  if decision = .ALLOW ∧ requiresHumanApproval action rules then
    let consumed :=
      match approvalRequestId with
      | some reqId => findApproved store wsId agId reqId now
      | none => none
    match consumed with
    | some r =>
        ⟨decision, reason, signals ++ ["human_approval_consumed"], none,
          store.map fun q => if q.id == r.id then { q with consumedAt := some now } else q⟩
    | none =>
        ⟨.BLOCK, "approval_required", signals ++ ["human_approval_required"], some freshId,
          store ++ [{ id := freshId, workspaceId := wsId, agentId := agId, tool := tool,
                      action := action, resource := resource, metadata := metadata,
                      status := .PENDING, riskScore := none,
                      requestedBy := requestedBy.getD "SYSTEM",
                      expiresAt := now + APPROVAL_TTL_MS, consumedAt := none,
                      resolvedByUserId := none, resolvedAt := none, resolutionNote := none }]⟩
  else ⟨decision, reason, signals, none, store⟩

/-- `POST /approvals/:id/approve`: valid only from `PENDING`; never touches
`consumedAt`. -/
def approveRequest (store : ApprovalStore) (rid userId : String) (note : Option String)
    (now : ℤ) : ApprovalStore :=
  match store.find? (fun r => r.id == rid) with
  | none => store
  | some r =>
      if r.status = .PENDING then
        store.map fun q =>
          if q.id == r.id then
            { q with status := .APPROVED, resolvedByUserId := some userId,
                     resolvedAt := some now, resolutionNote := note }
          else q
      else store

/-- `POST /approvals/:id/reject`: valid only from `PENDING`. -/
def rejectRequest (store : ApprovalStore) (rid userId : String) (note : Option String)
    (now : ℤ) : ApprovalStore :=
  match store.find? (fun r => r.id == rid) with
  | none => store
  | some r =>
      if r.status = .PENDING then
        store.map fun q =>
          if q.id == r.id then
            { q with status := .REJECTED, resolvedByUserId := some userId,
                     resolvedAt := some now, resolutionNote := note }
          else q
      else store

/-- Every operation of the running system that touches approval rows. -/
inductive ApprovalOp where
  | gate (decision : Decision) (reason : String) (signals : List String) (rules : PolicyRules)
      (wsId agId tool action : String) (resource : Option String)
      (metadata : List (String × Jv)) (approvalRequestId : Option String)
      (requestedBy : Option String) (now : ℤ) (freshId : String) : ApprovalOp
  | approve (rid userId : String) (note : Option String) (now : ℤ) : ApprovalOp
  | reject (rid userId : String) (note : Option String) (now : ℤ) : ApprovalOp
  | playbookApproval (freshId wsId agId tool action : String) (resource : Option String)
      (metadata : List (String × Jv)) (requestedBy : String) (riskScore : ℚ)
      (ttlMs : ℤ) (now : ℤ) : ApprovalOp

def applyOp (store : ApprovalStore) : ApprovalOp → ApprovalStore
  | .gate d re sg ru w a t ac r m aid rb now fid =>
      (approvalGate d re sg ru store w a t ac r m aid rb now fid).store
  | .approve rid u note now => approveRequest store rid u note now
  | .reject rid u note now => rejectRequest store rid u note now
  | .playbookApproval fid w a t ac r m rb risk ttl now =>
      store ++ [{ id := fid, workspaceId := w, agentId := a, tool := t, action := ac,
                  resource := r, metadata := m, status := .PENDING, riskScore := some risk,
                  requestedBy := rb, expiresAt := now + ttl, consumedAt := none,
                  resolvedByUserId := none, resolvedAt := none, resolutionNote := none }]

def applyOps (store : ApprovalStore) (ops : List ApprovalOp) : ApprovalStore :=
  ops.foldl applyOp store

/-- The ids an operation may mint as a fresh primary key. -/
def opNewIds : ApprovalOp → List String
  | .gate _ _ _ _ _ _ _ _ _ _ _ _ _ fid => [fid]
  | .approve _ _ _ _ => []
  | .reject _ _ _ _ => []
  | .playbookApproval fid _ _ _ _ _ _ _ _ _ _ => [fid]

/-! ## Playbooks (`apps/api/src/services/playbookService.ts`) -/

inductive ExecutionStatus where
  | EXECUTED : ExecutionStatus
  | SKIPPED : ExecutionStatus
  | FAILED : ExecutionStatus
deriving Repr, DecidableEq

structure Playbook where
  id : String
  name : String
  enabled : Bool
  triggerDecision : Option Decision
  minRiskScore : ℚ
  matchSignals : Jv
  actionType : String
  actionConfig : Option (List (String × Jv))
deriving Repr

/-- The event data `runPlaybooksForEvent` receives. -/
structure EventFacts where
  workspaceId : String
  agentId : Option String
  eventId : String
  decision : Decision
  riskScore : ℚ
  signals : List String
  tool : String
  action : String
  resource : Option String
  metadata : List (String × Jv)
deriving Repr

/-- `getSignalMatchers`: the non-empty strings of an array value, else `[]`. -/
def getSignalMatchers : Jv → List String
  | .arr xs =>
      xs.filterMap fun v =>
        match v with
        | .str s => if s.length > 0 then some s else none
        | _ => none
  | _ => []

/-- The observable outcome of evaluating one playbook against one event: the
`playbookExecution` record plus the side effects it performed. -/
structure PlaybookOutcome where
  status : ExecutionStatus
  message : String
  webhookCalls : List String
  agentDisabled : Bool
  keysRevoked : Bool
  approvalsCreated : Nat
deriving Repr, DecidableEq

/-- `typeof actionConfig[key] === 'string' ? it : ''`. -/
def configStr (cfg : List (String × Jv)) (key : String) : String :=
  match cfg.lookup key with
  | some (.str s) => s
  | _ => ""

/-- The three trigger conditions, conjoined: `decisionMatch && riskMatch &&
signalsMatch`. -/
def playbookMatches (pb : Playbook) (ev : EventFacts) : Bool :=
  let requiredSignals := getSignalMatchers pb.matchSignals
  let decisionMatch := pb.triggerDecision.isNone || pb.triggerDecision == some ev.decision
  let riskMatch := decide (ev.riskScore ≥ pb.minRiskScore)
  let signalsMatch :=
    requiredSignals.isEmpty || requiredSignals.all fun s => ev.signals.contains s
  decisionMatch && riskMatch && signalsMatch

/-- One iteration of the playbook loop. `webhookResult` stands for the outcome
the `fetch` would have if it were reached (the try/catch body's only throwing
step); everything else is deterministic. -/
def runPlaybook (pb : Playbook) (ev : EventFacts) (webhookResult : Except String Unit) :
    PlaybookOutcome :=
  if ¬playbookMatches pb ev then
    ⟨.SKIPPED, "Trigger conditions not met", [], false, false, 0⟩
  else
    let cfg := pb.actionConfig.getD []
    if pb.actionType == "DISABLE_AGENT" then
      match ev.agentId with
      | none => ⟨.EXECUTED, "No agent available to disable", [], false, false, 0⟩
      | some _ => ⟨.EXECUTED, "Agent disabled by playbook", [], true, false, 0⟩
    else if pb.actionType == "REVOKE_ACTIVE_KEYS" then
      match ev.agentId with
      | none => ⟨.EXECUTED, "No agent available to revoke keys", [], false, false, 0⟩
      | some _ => ⟨.EXECUTED, "Active keys revoked by playbook", [], false, true, 0⟩
    else if pb.actionType == "CREATE_APPROVAL" then
      match ev.agentId with
      | none => ⟨.EXECUTED, "No agent available for approval request", [], false, false, 0⟩
      | some _ => ⟨.EXECUTED, "Approval request created by playbook", [], false, false, 1⟩
    else if pb.actionType == "NOTIFY_WEBHOOK" then
      let url := configStr cfg "url"
      if url == "" then
        ⟨.EXECUTED, "Webhook URL missing in playbook actionConfig", [], false, false, 0⟩
      else
        match webhookResult with
        | .ok _ => ⟨.EXECUTED, "Webhook notification sent by playbook", [url], false, false, 0⟩
        | .error msg => ⟨.FAILED, msg, [url], false, false, 0⟩
    else
      ⟨.EXECUTED, "Unsupported action type " ++ pb.actionType, [], false, false, 0⟩

/-- The loop over the workspace's enabled playbooks in creation order; a
skip or failure never short-circuits the remaining playbooks. -/
def runPlaybooksForEvent (pbs : List Playbook) (ev : EventFacts)
    (webhookResult : String → Except String Unit) : List (String × PlaybookOutcome) :=
  (pbs.filter (·.enabled)).map fun pb => (pb.id, runPlaybook pb ev (webhookResult pb.id))

/-- Concrete fixture: three sequential append inputs for one workspace (the
shape of the unit test's events, plus a third with the optional fields
absent). -/
def sampleInputs : List (AuditEventInput × String) :=
  [({ workspaceId := "w1", agentId := some "a1", tool := "kb", action := "read",
      resource := some "doc:1", decision := .ALLOW, reason := "ok",
      metadata := some [("foo", .str "bar")], anomalyFlagged := some false },
    "2026-02-26T00:00:00.000Z"),
   ({ workspaceId := "w1", agentId := some "a1", tool := "db", action := "delete",
      resource := some "doc:2", decision := .BLOCK, reason := "denied",
      metadata := some [("foo", .str "baz")], anomalyFlagged := some true },
    "2026-02-26T00:01:00.000Z"),
   ({ workspaceId := "w1", agentId := none, tool := "kb", action := "read",
      resource := none, decision := .ALLOW, reason := "ok",
      metadata := none, anomalyFlagged := none },
    "2026-02-26T00:02:00.000Z")]

/-- The middle event of the fixture chain with its stored `tool` field mutated
and its stored `hash`/`prevHash` left as they were — a tampered row. -/
def sampleTampered : StoredEvent :=
  { (buildChain sampleInputs).getD 1
      ⟨"", none, "", "", none, .ALLOW, "", [], false, "", "", ""⟩ with
    tool := "evil" }

/-- The eight signal literals the source ever emits. -/
def RECOGNIZED_SIGNALS : List String :=
  ["high_risk_action", "unknown_tool", "burst_rate", "behavior_drift",
   "off_hours_execution", "new_action_pattern", "human_approval_required",
   "human_approval_consumed"]

/-! # Helper lemmas -/

theorem ite_add_shape (c : Prop) [Decidable c] (s k : ℚ) :
    (if c then s + k else s) = s + (if c then k else 0) := by
  split <;> simp

theorem ite_mult_shape (c q r : Prop) [Decidable c] [Decidable q] [Decidable r] (s : ℚ) :
    (if c then (if q then s + 12 else if r then s + 6 else s) else s)
      = s + (if c then (if q then 12 else if r then 6 else 0) else 0) := by
  split
  · split
    · simp
    · split <;> simp
  · simp

/-- `computeRiskScore` as a clamped sum of independent contributions. -/
theorem computeRiskScore_eq (signals : List String) (action : String) (decision : Decision)
    (context : RiskScoreContext) :
    computeRiskScore signals action decision context =
      max 0 (min 100 ((5:ℚ)
        + (if HIGH_RISK_ACTIONS.contains (jsToLower action) then (45:ℚ) else 0)
        + (if signals.contains "unknown_tool" then (20:ℚ) else 0)
        + (if signals.contains "burst_rate" then (20:ℚ) else 0)
        + (if signals.contains "behavior_drift" then (15:ℚ) else 0)
        + (if signals.contains "off_hours_execution" then (10:ℚ) else 0)
        + (if signals.contains "new_action_pattern" then (12:ℚ) else 0)
        + (if decision = .BLOCK then (10:ℚ) else 0)
        + (if context.burstRate.getD 0 > 0 ∧ context.baselineAvgPerMinute.getD 0 > 0 then
             (if context.burstRate.getD 0 / max 1 (context.baselineAvgPerMinute.getD 0) ≥ 3
              then (12:ℚ)
              else if context.burstRate.getD 0 / max 1 (context.baselineAvgPerMinute.getD 0) ≥ 2
              then (6:ℚ)
              else 0)
           else 0)
        + (if context.baselineAvgRiskScore.getD 0 > 0 ∧ decision = .ALLOW then
             (jsRound (min 8 (context.baselineAvgRiskScore.getD 0 / 20)) : ℚ) else 0)
        + (if context.isOffHours.getD false then (5:ℚ) else 0)
        + (if context.isNewPattern.getD false then (5:ℚ) else 0))) := by
  unfold computeRiskScore
  simp only [ite_mult_shape]
  simp only [ite_add_shape]

theorem contains_append_self (l : List String) (s x : String)
    (hx : l.contains x = true) : (l ++ [s]).contains x = true := by
  have hm : x ∈ l := by simpa using hx
  simpa using Or.inl hm

theorem ite_contains_mono {l l' : List String}
    (h : ∀ x, l.contains x = true → l'.contains x = true) (s : String) (k : ℚ) (hk : 0 ≤ k) :
    (if l.contains s then k else 0) ≤ (if l'.contains s then k else 0) := by
  by_cases hc : l.contains s = true
  · rw [if_pos hc, if_pos (h s hc)]
  · rw [if_neg hc]
    split
    · exact hk
    · exact le_refl 0

unseal Rat.add Rat.mul Rat.sub Rat.inv

theorem mem_ite_singleton {x a : String} {c : Prop} [Decidable c] :
    x ∈ (if c then [a] else ([] : List String)) ↔ c ∧ x = a := by
  split
  · next h => simp [h]
  · next h => simp [h]

theorem not_mem_ite_singleton {x a : String} (hne : x ≠ a) (c : Prop) [Decidable c] :
    x ∉ (if c then [a] else ([] : List String)) := by
  split <;> simp [hne]

/-- The signal list `evaluatePolicy` attaches to every one of its five results. -/
theorem evaluatePolicy_signals (rules : PolicyRules) (ctx : PolicyEvaluationContext) :
    (evaluatePolicy rules ctx).signals =
      (if HIGH_RISK_ACTIONS.contains (jsToLower ctx.action) then ["high_risk_action"]
        else []) ++
      ((if rules.allow_tools.length > 0 ∧ ¬rules.allow_tools.contains ctx.tool then
          ["unknown_tool"] else []) ++
        (match ctx.burstRate with
         | some b => if b ≥ 5 then ["burst_rate"] else []
         | none => [])) := by
  unfold evaluatePolicy
  dsimp only
  repeat' split
  all_goals rfl

/-- No `evaluatePolicy` result ever carries a signal outside the three it
detects. -/
theorem evaluatePolicy_signal_cases (rules : PolicyRules) (ctx : PolicyEvaluationContext)
    (x : String) (hx : x ∈ (evaluatePolicy rules ctx).signals) :
    x = "high_risk_action" ∨ x = "unknown_tool" ∨ x = "burst_rate" := by
  rw [evaluatePolicy_signals] at hx
  rcases List.mem_append.mp hx with h1 | h23
  · exact Or.inl (mem_ite_singleton.mp h1).2
  · rcases List.mem_append.mp h23 with h2 | h3
    · exact Or.inr (Or.inl (mem_ite_singleton.mp h2).2)
    · cases hb : ctx.burstRate with
      | none => rw [hb] at h3; cases h3
      | some b =>
          rw [hb] at h3
          exact Or.inr (Or.inr (mem_ite_singleton.mp h3).2)

/-! ## Canonicalization: order and sorting lemmas -/

/-- Member-wise induction over JSON values. -/
theorem jv_ind (P : Jv → Prop) (hnull : P .null) (hbool : ∀ b, P (.bool b))
    (hnum : ∀ n, P (.num n)) (hstr : ∀ s, P (.str s))
    (harr : ∀ xs, (∀ x ∈ xs, P x) → P (.arr xs))
    (hobj : ∀ fs, (∀ p ∈ fs, P p.2) → P (.obj fs)) : ∀ v, P v
  | .null => hnull
  | .bool b => hbool b
  | .num n => hnum n
  | .str s => hstr s
  | .arr xs => harr xs (fun x hx => jv_ind P hnull hbool hnum hstr harr hobj x)
  | .obj fs => hobj fs (fun p hp => jv_ind P hnull hbool hnum hstr harr hobj p.2)
termination_by v => sizeOf v
decreasing_by
  · have h1 := List.sizeOf_lt_of_mem hx
    simp only [Jv.arr.sizeOf_spec]
    omega
  · have h1 := List.sizeOf_lt_of_mem hp
    obtain ⟨k, v⟩ := p
    simp only [Jv.obj.sizeOf_spec, Prod.mk.sizeOf_spec] at *
    omega

theorem char_toNat_inj {a b : Char} (h : a.toNat = b.toNat) : a = b := by
  apply Char.eq_of_val_eq
  apply UInt32.eq_of_val_eq
  exact Fin.ext h

theorem charListLe_total (l1 : List Char) :
    ∀ l2, charListLe l1 l2 = true ∨ charListLe l2 l1 = true := by
  induction l1 with
  | nil => intro l2; left; rfl
  | cons c cs ih =>
      intro l2
      cases l2 with
      | nil => right; rfl
      | cons d ds =>
          by_cases h1 : c.toNat < d.toNat
          · left; simp [charListLe, h1]
          · by_cases h2 : d.toNat < c.toNat
            · right; simp [charListLe, h2]
            · rcases ih ds with h | h
              · left; simp [charListLe, h1, h2, h]
              · right; simp [charListLe, h1, h2, h]

theorem charListLe_trans (l1 : List Char) :
    ∀ l2 l3, charListLe l1 l2 = true → charListLe l2 l3 = true →
      charListLe l1 l3 = true := by
  induction l1 with
  | nil => intro l2 l3 _ _; rfl
  | cons c cs ih =>
      intro l2 l3 h12 h23
      cases l2 with
      | nil => simp [charListLe] at h12
      | cons d ds =>
          cases l3 with
          | nil => simp [charListLe] at h23
          | cons e es =>
              simp only [charListLe] at h12 h23 ⊢
              by_cases h3 : d.toNat < e.toNat
              · by_cases h1 : c.toNat < d.toNat
                · have : c.toNat < e.toNat := lt_trans h1 h3
                  simp [this]
                · by_cases h2 : d.toNat < c.toNat
                  · simp [h1, h2] at h12
                  · have hcd : c.toNat = d.toNat :=
                      Nat.le_antisymm (Nat.not_lt.mp h2) (Nat.not_lt.mp h1)
                    have : c.toNat < e.toNat := hcd ▸ h3
                    simp [this]
              · by_cases h4 : e.toNat < d.toNat
                · simp [h3, h4] at h23
                · have hde : d.toNat = e.toNat :=
                    Nat.le_antisymm (Nat.not_lt.mp h4) (Nat.not_lt.mp h3)
                  by_cases h1 : c.toNat < d.toNat
                  · have : c.toNat < e.toNat := hde ▸ h1
                    simp [this]
                  · by_cases h2 : d.toNat < c.toNat
                    · simp [h1, h2] at h12
                    · have hcd : c.toNat = d.toNat :=
                        Nat.le_antisymm (Nat.not_lt.mp h2) (Nat.not_lt.mp h1)
                      have hne1 : ¬c.toNat < e.toNat := by omega
                      have hne2 : ¬e.toNat < c.toNat := by omega
                      rw [if_neg h1, if_neg h2] at h12
                      rw [if_neg h3, if_neg h4] at h23
                      rw [if_neg hne1, if_neg hne2]
                      exact ih ds es h12 h23

theorem charListLe_antisymm (l1 : List Char) :
    ∀ l2, charListLe l1 l2 = true → charListLe l2 l1 = true → l1 = l2 := by
  induction l1 with
  | nil =>
      intro l2 _ h21
      cases l2 with
      | nil => rfl
      | cons d ds => simp [charListLe] at h21
  | cons c cs ih =>
      intro l2 h12 h21
      cases l2 with
      | nil => simp [charListLe] at h12
      | cons d ds =>
          by_cases h1 : c.toNat < d.toNat
          · simp [charListLe, h1, Nat.lt_asymm h1] at h21
          · by_cases h2 : d.toNat < c.toNat
            · simp [charListLe, h1, h2] at h12
            · have hcd : c = d :=
                char_toNat_inj (Nat.le_antisymm (Nat.not_lt.mp h2) (Nat.not_lt.mp h1))
              simp only [charListLe] at h12 h21
              rw [if_neg h1, if_neg h2] at h12
              rw [if_neg h2, if_neg h1] at h21
              rw [hcd, ih ds h12 h21]

theorem string_toList_inj {a b : String} (h : a.toList = b.toList) : a = b := by
  cases a with
  | mk d1 =>
      cases b with
      | mk d2 => exact congrArg String.mk h

theorem strLe_total (a b : String) : strLe a b = true ∨ strLe b a = true :=
  charListLe_total a.toList b.toList

theorem strLe_trans {a b c : String} (h1 : strLe a b = true) (h2 : strLe b c = true) :
    strLe a c = true :=
  charListLe_trans a.toList b.toList c.toList h1 h2

theorem strLe_antisymm {a b : String} (h1 : strLe a b = true) (h2 : strLe b a = true) :
    a = b :=
  string_toList_inj (charListLe_antisymm a.toList b.toList h1 h2)

theorem keysUnique_nodup (ks : List String) (h : keysUnique ks = true) : ks.Nodup := by
  induction ks with
  | nil => exact List.nodup_nil
  | cons k ks ih =>
      simp only [keysUnique, Bool.and_eq_true] at h
      refine List.nodup_cons.mpr ⟨fun hmem => ?_, ih h.2⟩
      have hnotin : k ∉ ks := by simpa using h.1
      exact hnotin hmem

theorem sortPairs_eq_map (l : List (String × Jv)) :
    sortPairs l = l.map fun p => (p.1, sortObject p.2) := by
  induction l with
  | nil => rfl
  | cons p l ih => simp [sortPairs, ih]

theorem sortList_eq_map (l : List Jv) : sortList l = l.map sortObject := by
  induction l with
  | nil => rfl
  | cons x l ih => simp [sortList, ih]

theorem sortFields_perm (l : List (String × Jv)) : (sortFields l).Perm l :=
  List.perm_insertionSort fieldLe l

theorem sortFields_sorted (l : List (String × Jv)) : List.Sorted fieldLe (sortFields l) := by
  haveI : IsTotal (String × Jv) fieldLe := ⟨fun a b => strLe_total a.1 b.1⟩
  haveI : IsTrans (String × Jv) fieldLe := ⟨fun _ _ _ h1 h2 => strLe_trans h1 h2⟩
  exact List.sorted_insertionSort fieldLe l

/-- Two sorted field lists that are permutations of one another and have
pairwise-distinct keys are equal (the comparator is antisymmetric only on
keys, so key uniqueness replaces antisymmetry). -/
theorem sorted_perm_nodup_eq (l1 : List (String × Jv)) :
    ∀ l2, l1.Perm l2 → List.Sorted fieldLe l1 → List.Sorted fieldLe l2 →
      (l1.map Prod.fst).Nodup → l1 = l2 := by
  induction l1 with
  | nil => intro l2 hp _ _ _; exact hp.nil_eq
  | cons a t1 ih =>
      intro l2 hp hs1 hs2 hnd
      cases l2 with
      | nil =>
          have := hp.length_eq
          simp at this
      | cons b t2 =>
          rw [List.map_cons] at hnd
          have hab : a = b := by
            by_contra hne
            have ha2 : a ∈ b :: t2 := hp.mem_iff.mp (List.mem_cons_self a t1)
            have hb1 : b ∈ a :: t1 := hp.mem_iff.mpr (List.mem_cons_self b t2)
            have ha2' : a ∈ t2 := by
              rcases List.mem_cons.mp ha2 with h | h
              · exact absurd h hne
              · exact h
            have hb1' : b ∈ t1 := by
              rcases List.mem_cons.mp hb1 with h | h
              · exact absurd h.symm hne
              · exact h
            have h1 : fieldLe a b := (List.sorted_cons.mp hs1).1 b hb1'
            have h2 : fieldLe b a := (List.sorted_cons.mp hs2).1 a ha2'
            have hkey : a.1 = b.1 := strLe_antisymm h1 h2
            have hmem : a.1 ∈ t1.map Prod.fst := by
              rw [hkey]
              exact List.mem_map_of_mem Prod.fst hb1'
            exact (List.nodup_cons.mp hnd).1 hmem
          subst hab
          have ht : t1.Perm t2 := hp.cons_inv
          have hnd2 : (t1.map Prod.fst).Nodup := (List.nodup_cons.mp hnd).2
          rw [ih t2 ht (List.sorted_cons.mp hs1).2 (List.sorted_cons.mp hs2).2 hnd2]

/-- A successful lookup splits the field list, as a permutation, into the
found pair and the list with that pair's first occurrence erased. -/
theorem lookup_eraseKey_perm (gs : List (String × Jv)) :
    ∀ (k : String) (w : Jv), List.lookup k gs = some w →
      gs.Perm ((k, w) :: eraseKey gs k) := by
  induction gs with
  | nil => intro k w h; simp [List.lookup] at h
  | cons p gs' ih =>
      intro k w h
      obtain ⟨k', v'⟩ := p
      by_cases hk : k = k'
      · subst hk
        simp [List.lookup] at h
        subst h
        have he : eraseKey ((k, v') :: gs') k = gs' := by simp [eraseKey]
        rw [he]
      · have hbeq : (k == k') = false := beq_eq_false_iff_ne.mpr hk
        have hbeq' : (k' == k) = false := beq_eq_false_iff_ne.mpr (Ne.symm hk)
        have h' : List.lookup k gs' = some w := by
          simpa [List.lookup, hbeq] using h
        have he : eraseKey ((k', v') :: gs') k = (k', v') :: eraseKey gs' k := by
          simp [eraseKey, hbeq']
        rw [he]
        exact ((ih k w h').cons (k', v')).trans (List.Perm.swap (k, w) (k', v') _)

theorem koeqList_sortList (xs : List Jv) :
    ∀ ys, (∀ x ∈ xs, ∀ w, jvWF x = true → koeq x w = true → sortObject x = sortObject w) →
      jvWFList xs = true → koeqList xs ys = true → sortList xs = sortList ys := by
  induction xs with
  | nil =>
      intro ys _ _ hk
      cases ys with
      | nil => rfl
      | cons y ys' => simp [koeqList] at hk
  | cons x xs' ih =>
      intro ys hIH hwf hk
      cases ys with
      | nil => simp [koeqList] at hk
      | cons y ys' =>
          simp only [koeqList, Bool.and_eq_true] at hk
          simp only [jvWFList, Bool.and_eq_true] at hwf
          have h1 := hIH x (List.mem_cons_self x xs') y hwf.1 hk.1
          have h2 := ih ys' (fun z hz => hIH z (List.mem_cons_of_mem x hz)) hwf.2 hk.2
          simp [sortList, h1, h2]

theorem koeqFields_sortPairs_perm (fs : List (String × Jv)) :
    ∀ gs, (∀ p ∈ fs, ∀ w, jvWF p.2 = true → koeq p.2 w = true → sortObject p.2 = sortObject w) →
      jvWFFields fs = true → koeqFields fs gs = true →
      (sortPairs gs).Perm (sortPairs fs) := by
  induction fs with
  | nil =>
      intro gs _ _ hk
      cases gs with
      | nil => exact List.Perm.refl _
      | cons p gs' => simp [koeqFields] at hk
  | cons p fs' ih =>
      intro gs hIH hwf hk
      obtain ⟨k, v⟩ := p
      simp only [koeqFields] at hk
      cases hl : List.lookup k gs with
      | none => rw [hl] at hk; simp at hk
      | some w =>
          rw [hl] at hk
          simp only [Bool.and_eq_true] at hk
          simp only [jvWFFields, Bool.and_eq_true] at hwf
          have hv : sortObject v = sortObject w :=
            hIH (k, v) (List.mem_cons_self _ _) w hwf.1 hk.1
          have hperm0 := (lookup_eraseKey_perm gs k w hl).map (fun q => (q.1, sortObject q.2))
          rw [← sortPairs_eq_map gs, ← sortPairs_eq_map ((k, w) :: eraseKey gs k)] at hperm0
          have hrec := ih (eraseKey gs k)
            (fun q hq => hIH q (List.mem_cons_of_mem _ hq)) hwf.2 hk.2
          have step1 : (sortPairs gs).Perm ((k, sortObject w) :: sortPairs (eraseKey gs k)) := by
            have hcons : sortPairs ((k, w) :: eraseKey gs k)
                = (k, sortObject w) :: sortPairs (eraseKey gs k) := by simp [sortPairs]
            rw [← hcons]
            exact hperm0
          have hfinal : sortPairs ((k, v) :: fs') = (k, sortObject w) :: sortPairs fs' := by
            simp [sortPairs, hv]
          rw [hfinal]
          exact step1.trans (hrec.cons _)

/-- Key-order-equivalent values have the same canonical (key-sorted) form,
provided the left value has pairwise-distinct keys at every object level. -/
theorem koeq_sortObject (v : Jv) :
    ∀ w, jvWF v = true → koeq v w = true → sortObject v = sortObject w := by
  refine jv_ind
    (fun v => ∀ w, jvWF v = true → koeq v w = true → sortObject v = sortObject w)
    ?_ ?_ ?_ ?_ ?_ ?_ v
  · intro w _ hk
    cases w with
    | null => rfl
    | bool b => simp [koeq] at hk
    | num n => simp [koeq] at hk
    | str s => simp [koeq] at hk
    | arr ys => simp [koeq] at hk
    | obj gs => simp [koeq] at hk
  · intro b w _ hk
    cases w with
    | bool b' =>
        have hb : b = b' := by simpa [koeq] using hk
        rw [hb]
    | null => simp [koeq] at hk
    | num n => simp [koeq] at hk
    | str s => simp [koeq] at hk
    | arr ys => simp [koeq] at hk
    | obj gs => simp [koeq] at hk
  · intro n w _ hk
    cases w with
    | num n' =>
        have hn : n = n' := by simpa [koeq] using hk
        rw [hn]
    | null => simp [koeq] at hk
    | bool b => simp [koeq] at hk
    | str s => simp [koeq] at hk
    | arr ys => simp [koeq] at hk
    | obj gs => simp [koeq] at hk
  · intro s w _ hk
    cases w with
    | str s' =>
        have hs : s = s' := by simpa [koeq] using hk
        rw [hs]
    | null => simp [koeq] at hk
    | bool b => simp [koeq] at hk
    | num n => simp [koeq] at hk
    | arr ys => simp [koeq] at hk
    | obj gs => simp [koeq] at hk
  · intro xs hx w hwf hk
    cases w with
    | arr ys =>
        have hk' : koeqList xs ys = true := by simpa [koeq] using hk
        have hwf' : jvWFList xs = true := by simpa [jvWF] using hwf
        have hs := koeqList_sortList xs ys hx hwf' hk'
        simp [sortObject, hs]
    | null => simp [koeq] at hk
    | bool b => simp [koeq] at hk
    | num n => simp [koeq] at hk
    | str s => simp [koeq] at hk
    | obj gs => simp [koeq] at hk
  · intro fs hf w hwf hk
    cases w with
    | obj gs =>
        have hk' : koeqFields fs gs = true := by simpa [koeq] using hk
        simp only [jvWF, Bool.and_eq_true] at hwf
        have hperm := koeqFields_sortPairs_perm fs gs hf hwf.2 hk'
        have hp2 : (sortFields (sortPairs fs)).Perm (sortFields (sortPairs gs)) :=
          ((sortFields_perm (sortPairs fs)).trans hperm.symm).trans
            (sortFields_perm (sortPairs gs)).symm
        have hnd : ((sortFields (sortPairs fs)).map Prod.fst).Nodup := by
          have h0 : (fs.map Prod.fst).Nodup := keysUnique_nodup _ hwf.1
          have h1 : (sortPairs fs).map Prod.fst = fs.map Prod.fst := by
            rw [sortPairs_eq_map]
            simp [List.map_map, Function.comp]
          have h2 := (sortFields_perm (sortPairs fs)).map Prod.fst
          rw [h1] at h2
          exact h2.nodup_iff.mpr h0
        have heq := sorted_perm_nodup_eq (sortFields (sortPairs fs)) (sortFields (sortPairs gs))
          hp2 (sortFields_sorted _) (sortFields_sorted _) hnd
        simp [sortObject, heq]
    | null => simp [koeq] at hk
    | bool b => simp [koeq] at hk
    | num n => simp [koeq] at hk
    | str s => simp [koeq] at hk
    | arr ys => simp [koeq] at hk

theorem jvWFFields_mem {gs : List (String × Jv)} (h : jvWFFields gs = true)
    {p : String × Jv} (hp : p ∈ gs) : jvWF p.2 = true := by
  induction gs with
  | nil => simp at hp
  | cons q gs' ih =>
      simp only [jvWFFields, Bool.and_eq_true] at h
      rcases List.mem_cons.mp hp with he | hm
      · rw [he]; exact h.1
      · exact ih h.2 hm

theorem lookup_of_mem_nodup (gs : List (String × Jv)) :
    ∀ (k : String) (u : Jv), (gs.map Prod.fst).Nodup → (k, u) ∈ gs →
      List.lookup k gs = some u := by
  induction gs with
  | nil => intro k u _ hm; simp at hm
  | cons p gs' ih =>
      intro k u hnd hm
      obtain ⟨k', v'⟩ := p
      rw [List.map_cons] at hnd
      rcases List.mem_cons.mp hm with h | h
      · cases h
        simp [List.lookup]
      · have hkmem : k ∈ gs'.map Prod.fst := List.mem_map.mpr ⟨(k, u), h, rfl⟩
        have hk' : k ≠ k' := by
          intro he
          subst he
          exact (List.nodup_cons.mp hnd).1 hkmem
        have hbeq : (k == k') = false := beq_eq_false_iff_ne.mpr hk'
        simp only [List.lookup, hbeq]
        exact ih k u (List.nodup_cons.mp hnd).2 h

theorem eraseKey_sublist (gs : List (String × Jv)) (k : String) :
    (eraseKey gs k).Sublist gs := by
  induction gs with
  | nil => simp [eraseKey]
  | cons p gs' ih =>
      by_cases h : (p.1 == k) = true
      · simp only [eraseKey]
        rw [if_pos h]
        exact List.sublist_cons_self p gs'
      · simp only [eraseKey]
        rw [if_neg h]
        exact ih.cons₂ p

theorem jvWFFields_sublist {gs gs' : List (String × Jv)} (hs : gs'.Sublist gs)
    (h : jvWFFields gs = true) : jvWFFields gs' = true := by
  induction hs with
  | slnil => rfl
  | cons p hs ih =>
      simp only [jvWFFields, Bool.and_eq_true] at h
      exact ih h.2
  | cons₂ p hs ih =>
      simp only [jvWFFields, Bool.and_eq_true] at h ⊢
      exact ⟨h.1, ih h.2⟩

theorem sortList_koeqList (xs : List Jv) :
    ∀ ys, (∀ x ∈ xs, ∀ w, jvWF x = true → jvWF w = true →
        sortObject x = sortObject w → koeq x w = true) →
      jvWFList xs = true → jvWFList ys = true → sortList xs = sortList ys →
      koeqList xs ys = true := by
  induction xs with
  | nil =>
      intro ys _ _ _ hs
      cases ys with
      | nil => rfl
      | cons y ys' => simp [sortList] at hs
  | cons x xs' ih =>
      intro ys hIH hwf1 hwf2 hs
      cases ys with
      | nil => simp [sortList] at hs
      | cons y ys' =>
          simp only [sortList, List.cons.injEq] at hs
          simp only [jvWFList, Bool.and_eq_true] at hwf1 hwf2
          have h1 := hIH x (List.mem_cons_self x xs') y hwf1.1 hwf2.1 hs.1
          have h2 := ih ys' (fun z hz => hIH z (List.mem_cons_of_mem x hz)) hwf1.2 hwf2.2 hs.2
          simp [koeqList, h1, h2]

theorem sortPairs_koeqFields (fs : List (String × Jv)) :
    ∀ gs, (∀ p ∈ fs, ∀ w, jvWF p.2 = true → jvWF w = true →
        sortObject p.2 = sortObject w → koeq p.2 w = true) →
      jvWFFields fs = true → jvWFFields gs = true → (gs.map Prod.fst).Nodup →
      (sortPairs fs).Perm (sortPairs gs) → koeqFields fs gs = true := by
  induction fs with
  | nil =>
      intro gs _ _ _ _ hp
      cases gs with
      | nil => rfl
      | cons p gs' =>
          have h0 := hp.nil_eq
          simp [sortPairs] at h0
  | cons p fs' ih =>
      intro gs hIH hwf1 hwf2 hnd hp
      obtain ⟨k, v⟩ := p
      simp only [jvWFFields, Bool.and_eq_true] at hwf1
      have hmem : ((k, sortObject v) : String × Jv) ∈ sortPairs gs := by
        have hself : ((k, sortObject v) : String × Jv) ∈ sortPairs ((k, v) :: fs') := by
          simp [sortPairs]
        exact hp.mem_iff.mp hself
      rw [sortPairs_eq_map] at hmem
      obtain ⟨⟨k0, u⟩, hu_mem, hu_eq⟩ := List.mem_map.mp hmem
      have hk0 : k = k0 := (congrArg Prod.fst hu_eq).symm
      have hsv : sortObject u = sortObject v := congrArg Prod.snd hu_eq
      subst hk0
      have hlook : List.lookup k gs = some u := lookup_of_mem_nodup gs k u hnd hu_mem
      have hwfu : jvWF u = true := jvWFFields_mem hwf2 hu_mem
      have hkv : koeq v u = true :=
        hIH (k, v) (List.mem_cons_self _ _) u hwf1.1 hwfu hsv.symm
      have hperm' : (sortPairs fs').Perm (sortPairs (eraseKey gs k)) := by
        have h1 := (lookup_eraseKey_perm gs k u hlook).map (fun q => (q.1, sortObject q.2))
        rw [← sortPairs_eq_map gs, ← sortPairs_eq_map ((k, u) :: eraseKey gs k)] at h1
        have h2 : sortPairs ((k, u) :: eraseKey gs k)
            = (k, sortObject v) :: sortPairs (eraseKey gs k) := by
          simp [sortPairs, hsv]
        rw [h2] at h1
        have h3 : sortPairs ((k, v) :: fs') = (k, sortObject v) :: sortPairs fs' := by
          simp [sortPairs]
        rw [h3] at hp
        exact (hp.trans h1).cons_inv
      have hnd' : ((eraseKey gs k).map Prod.fst).Nodup :=
        ((eraseKey_sublist gs k).map Prod.fst).nodup hnd
      have hwf2' : jvWFFields (eraseKey gs k) = true :=
        jvWFFields_sublist (eraseKey_sublist gs k) hwf2
      have hrec := ih (eraseKey gs k) (fun q hq => hIH q (List.mem_cons_of_mem _ hq))
        hwf1.2 hwf2' hnd' hperm'
      simp [koeqFields, hlook, hkv, hrec]

/-- Converse of `koeq_sortObject`: values with the same canonical (key-sorted)
form are key-order equivalent, when both have pairwise-distinct keys at every
object level. -/
theorem sortObject_koeq (v : Jv) :
    ∀ w, jvWF v = true → jvWF w = true → sortObject v = sortObject w →
      koeq v w = true := by
  refine jv_ind
    (fun v => ∀ w, jvWF v = true → jvWF w = true → sortObject v = sortObject w →
      koeq v w = true)
    ?_ ?_ ?_ ?_ ?_ ?_ v
  · intro w _ _ hs
    cases w with
    | null => rfl
    | bool b => simp [sortObject] at hs
    | num n => simp [sortObject] at hs
    | str s => simp [sortObject] at hs
    | arr ys => simp [sortObject] at hs
    | obj gs => simp [sortObject] at hs
  · intro b w _ _ hs
    cases w with
    | bool b' =>
        have hb : b = b' := by simpa [sortObject] using hs
        simp [koeq, hb]
    | null => simp [sortObject] at hs
    | num n => simp [sortObject] at hs
    | str s => simp [sortObject] at hs
    | arr ys => simp [sortObject] at hs
    | obj gs => simp [sortObject] at hs
  · intro n w _ _ hs
    cases w with
    | num n' =>
        have hn : n = n' := by simpa [sortObject] using hs
        simp [koeq, hn]
    | null => simp [sortObject] at hs
    | bool b => simp [sortObject] at hs
    | str s => simp [sortObject] at hs
    | arr ys => simp [sortObject] at hs
    | obj gs => simp [sortObject] at hs
  · intro s w _ _ hs
    cases w with
    | str s' =>
        have hstr : s = s' := by simpa [sortObject] using hs
        simp [koeq, hstr]
    | null => simp [sortObject] at hs
    | bool b => simp [sortObject] at hs
    | num n => simp [sortObject] at hs
    | arr ys => simp [sortObject] at hs
    | obj gs => simp [sortObject] at hs
  · intro xs hx w hwf1 hwf2 hs
    cases w with
    | arr ys =>
        have hs' : sortList xs = sortList ys := by simpa [sortObject] using hs
        have hwf1' : jvWFList xs = true := by simpa [jvWF] using hwf1
        have hwf2' : jvWFList ys = true := by simpa [jvWF] using hwf2
        have hres := sortList_koeqList xs ys hx hwf1' hwf2' hs'
        simpa [koeq] using hres
    | null => simp [sortObject] at hs
    | bool b => simp [sortObject] at hs
    | num n => simp [sortObject] at hs
    | str s => simp [sortObject] at hs
    | obj gs => simp [sortObject] at hs
  · intro fs hf w hwf1 hwf2 hs
    cases w with
    | obj gs =>
        have hs' : sortFields (sortPairs fs) = sortFields (sortPairs gs) := by
          simpa [sortObject] using hs
        simp only [jvWF, Bool.and_eq_true] at hwf1 hwf2
        have h1 : (sortPairs fs).Perm (sortFields (sortPairs fs)) :=
          (sortFields_perm _).symm
        have h2 : (sortFields (sortPairs gs)).Perm (sortPairs gs) := sortFields_perm _
        rw [← hs'] at h2
        have hperm : (sortPairs fs).Perm (sortPairs gs) := h1.trans h2
        have hnd : (gs.map Prod.fst).Nodup := keysUnique_nodup _ hwf2.1
        have hres := sortPairs_koeqFields fs gs hf hwf1.2 hwf2.2 hnd hperm
        simpa [koeq] using hres
    | null => simp [sortObject] at hs
    | bool b => simp [sortObject] at hs
    | num n => simp [sortObject] at hs
    | str s => simp [sortObject] at hs
    | arr ys => simp [sortObject] at hs

/-! ## Number rendering: digit runs and injectivity -/

theorem char_digit_toNat (d : Nat) (h : d < 10) : (Char.ofNat (48 + d)).toNat = 48 + d := by
  interval_cases d <;> decide

theorem digitsValAux_append (l1 : List Char) :
    ∀ (acc : Nat) (l2 : List Char),
      digitsValAux acc (l1 ++ l2) = digitsValAux (digitsValAux acc l1) l2 := by
  induction l1 with
  | nil => intro acc l2; rfl
  | cons c cs ih =>
      intro acc l2
      show digitsValAux (10 * acc + (c.toNat - 48)) (cs ++ l2)
          = digitsValAux (digitsValAux (10 * acc + (c.toNat - 48)) cs) l2
      exact ih _ l2

theorem digitsVal_natDigits : ∀ fuel n, n ≤ fuel → digitsVal (natDigits fuel n) = n := by
  intro fuel
  induction fuel with
  | zero =>
      intro n h
      have h0 : n = 0 := by omega
      subst h0
      rfl
  | succ f ih =>
      intro n h
      by_cases h0 : n = 0
      · subst h0; rfl
      · rw [natDigits, if_neg h0]
        unfold digitsVal
        rw [digitsValAux_append]
        have hd : (Char.ofNat (48 + n % 10)).toNat = 48 + n % 10 :=
          char_digit_toNat _ (Nat.mod_lt _ (by omega))
        have hx : digitsValAux 0 (natDigits f (n / 10)) = n / 10 := by
          have hlt : n / 10 < n := Nat.div_lt_self (by omega) (by omega)
          exact ih (n / 10) (by omega)
        show 10 * digitsValAux 0 (natDigits f (n / 10))
            + ((Char.ofNat (48 + n % 10)).toNat - 48) = n
        rw [hd, hx]
        omega

theorem digitsVal_renderNat (n : Nat) : digitsVal (renderNat n) = n := by
  rw [renderNat]
  by_cases h0 : n = 0
  · rw [if_pos h0, h0]; rfl
  · rw [if_neg h0]; exact digitsVal_natDigits n n (le_refl n)

theorem renderNat_inj {a b : Nat} (h : renderNat a = renderNat b) : a = b := by
  have ha := digitsVal_renderNat a
  have hb := digitsVal_renderNat b
  rw [← ha, ← hb, h]

theorem natDigits_all_digits : ∀ fuel n, ∀ c ∈ natDigits fuel n, isDigit c = true := by
  intro fuel
  induction fuel with
  | zero => intro n c hc; simp [natDigits] at hc
  | succ f ih =>
      intro n c hc
      rw [natDigits] at hc
      by_cases h0 : n = 0
      · rw [if_pos h0] at hc; simp at hc
      · rw [if_neg h0] at hc
        rcases List.mem_append.mp hc with h | h
        · exact ih _ c h
        · simp at h
          subst h
          have h10 : n % 10 < 10 := Nat.mod_lt _ (by omega)
          simp [isDigit, char_digit_toNat _ h10]
          omega

theorem renderNat_all_digits (n : Nat) : ∀ c ∈ renderNat n, isDigit c = true := by
  intro c hc
  rw [renderNat] at hc
  by_cases h0 : n = 0
  · rw [if_pos h0] at hc
    simp at hc
    subst hc
    decide
  · rw [if_neg h0] at hc
    exact natDigits_all_digits n n c hc

theorem renderNat_ne_nil (n : Nat) : renderNat n ≠ [] := by
  rw [renderNat]
  by_cases h0 : n = 0
  · rw [if_pos h0]; simp
  · rw [if_neg h0]
    cases n with
    | zero => exact absurd rfl h0
    | succ m =>
        rw [natDigits, if_neg h0]
        simp

/-- Two maximal digit runs followed by non-digit continuations coincide
segment by segment. -/
theorem digit_run_eq (l1 : List Char) :
    ∀ l2 r1 r2, (∀ c ∈ l1, isDigit c = true) → (∀ c ∈ l2, isDigit c = true) →
      digitStart r1 = false → digitStart r2 = false →
      l1 ++ r1 = l2 ++ r2 → l1 = l2 ∧ r1 = r2 := by
  induction l1 with
  | nil =>
      intro l2 r1 r2 _ hd2 hr1 _ heq
      cases l2 with
      | nil => exact ⟨rfl, heq⟩
      | cons c l2' =>
          simp only [List.nil_append, List.cons_append] at heq
          rw [heq] at hr1
          simp only [digitStart] at hr1
          exact absurd (hd2 c (List.mem_cons_self c l2')) (by simp [hr1])
  | cons c l1' ih =>
      intro l2 r1 r2 hd1 hd2 hr1 hr2 heq
      cases l2 with
      | nil =>
          simp only [List.nil_append, List.cons_append] at heq
          rw [← heq] at hr2
          simp only [digitStart] at hr2
          exact absurd (hd1 c (List.mem_cons_self c l1')) (by simp [hr2])
      | cons d l2' =>
          simp only [List.cons_append, List.cons.injEq] at heq
          obtain ⟨hcd, htail⟩ := heq
          obtain ⟨h1, h2⟩ := ih l2' r1 r2 (fun x hx => hd1 x (List.mem_cons_of_mem c hx))
            (fun x hx => hd2 x (List.mem_cons_of_mem d hx)) hr1 hr2 htail
          exact ⟨by rw [hcd, h1], h2⟩

/-- `String(n)` is prefix-injective among continuations that do not start
with a digit. -/
theorem renderInt_pre_inj (a b : Int) (r1 r2 : List Char)
    (hr1 : digitStart r1 = false) (hr2 : digitStart r2 = false)
    (h : renderInt a ++ r1 = renderInt b ++ r2) : a = b ∧ r1 = r2 := by
  rw [renderInt, renderInt] at h
  by_cases ha : a < 0
  · rw [if_pos ha] at h
    by_cases hb : b < 0
    · rw [if_pos hb] at h
      simp only [List.cons_append, List.cons.injEq] at h
      obtain ⟨hd, h2⟩ := digit_run_eq (renderNat a.natAbs) (renderNat b.natAbs) r1 r2
        (renderNat_all_digits _) (renderNat_all_digits _) hr1 hr2 h.2
      have hab : a.natAbs = b.natAbs := renderNat_inj hd
      exact ⟨by omega, h2⟩
    · rw [if_neg hb] at h
      obtain ⟨c, t, hct⟩ := List.exists_cons_of_ne_nil (renderNat_ne_nil b.natAbs)
      rw [hct] at h
      simp only [List.cons_append, List.cons.injEq] at h
      have hcd : isDigit c = true :=
        renderNat_all_digits b.natAbs c (by rw [hct]; exact List.mem_cons_self c t)
      rw [← h.1] at hcd
      exact absurd hcd (by decide)
  · rw [if_neg ha] at h
    by_cases hb : b < 0
    · rw [if_pos hb] at h
      obtain ⟨c, t, hct⟩ := List.exists_cons_of_ne_nil (renderNat_ne_nil a.natAbs)
      rw [hct] at h
      simp only [List.cons_append, List.cons.injEq] at h
      have hcd : isDigit c = true :=
        renderNat_all_digits a.natAbs c (by rw [hct]; exact List.mem_cons_self c t)
      rw [h.1] at hcd
      exact absurd hcd (by decide)
    · rw [if_neg hb] at h
      obtain ⟨hd, h2⟩ := digit_run_eq (renderNat a.natAbs) (renderNat b.natAbs) r1 r2
        (renderNat_all_digits _) (renderNat_all_digits _) hr1 hr2 h
      have hab : a.natAbs = b.natAbs := renderNat_inj hd
      exact ⟨by omega, h2⟩

/-! ## String rendering: escape decoding and injectivity -/

theorem hexVal_hexDigit (d : Nat) (h : d < 16) : hexVal (hexDigit d) = d := by
  interval_cases d <;> decide

theorem char_low_toNat (m : Nat) (h : m < 32) : (Char.ofNat m).toNat = m := by
  interval_cases m <;> decide

theorem char_ofNat_toNat_low (c : Char) (h : c.toNat < 32) : Char.ofNat c.toNat = c :=
  char_toNat_inj (char_low_toNat c.toNat h)

theorem shift_and_recompose (m : Nat) (h : m < 32) : 16 * (m >>> 4) + (m &&& 15) = m := by
  interval_cases m <;> decide

/-- `unescape` decodes one escaped character in front of any continuation. -/
theorem unescape_escape (c : Char) (rest : List Char) :
    unescape (escapeChar c ++ rest) = some (c, rest) := by
  by_cases h1 : c = '"'
  · subst h1; rfl
  · by_cases h2 : c = '\\'
    · subst h2; rfl
    · by_cases h3 : c.toNat = 8
      · have hc : c = Char.ofNat 8 := char_toNat_inj (by rw [h3]; decide)
        have hesc : escapeChar c = ['\\', 'b'] := by
          rw [escapeChar, if_neg h1, if_neg h2, if_pos h3]
        rw [hesc, hc]
        rfl
      · by_cases h4 : c.toNat = 9
        · have hc : c = Char.ofNat 9 := char_toNat_inj (by rw [h4]; decide)
          have hesc : escapeChar c = ['\\', 't'] := by
            rw [escapeChar, if_neg h1, if_neg h2, if_neg h3, if_pos h4]
          rw [hesc, hc]
          rfl
        · by_cases h5 : c.toNat = 10
          · have hc : c = Char.ofNat 10 := char_toNat_inj (by rw [h5]; decide)
            have hesc : escapeChar c = ['\\', 'n'] := by
              rw [escapeChar, if_neg h1, if_neg h2, if_neg h3, if_neg h4, if_pos h5]
            rw [hesc, hc]
            rfl
          · by_cases h6 : c.toNat = 12
            · have hc : c = Char.ofNat 12 := char_toNat_inj (by rw [h6]; decide)
              have hesc : escapeChar c = ['\\', 'f'] := by
                rw [escapeChar, if_neg h1, if_neg h2, if_neg h3, if_neg h4, if_neg h5, if_pos h6]
              rw [hesc, hc]
              rfl
            · by_cases h7 : c.toNat = 13
              · have hc : c = Char.ofNat 13 := char_toNat_inj (by rw [h7]; decide)
                have hesc : escapeChar c = ['\\', 'r'] := by
                  rw [escapeChar, if_neg h1, if_neg h2, if_neg h3, if_neg h4, if_neg h5,
                    if_neg h6, if_pos h7]
                rw [hesc, hc]
                rfl
              · by_cases h8 : c.toNat < 32
                · have hesc : escapeChar c = ['\\', 'u', '0', '0',
                      hexDigit (c.toNat >>> 4), hexDigit (c.toNat &&& 15)] := by
                    rw [escapeChar, if_neg h1, if_neg h2, if_neg h3, if_neg h4, if_neg h5,
                      if_neg h6, if_neg h7, if_pos h8]
                  rw [hesc]
                  show some (Char.ofNat (16 * hexVal (hexDigit (c.toNat >>> 4))
                      + hexVal (hexDigit (c.toNat &&& 15))), rest) = some (c, rest)
                  have e1 : c.toNat >>> 4 < 16 := by
                    rw [Nat.shiftRight_eq_div_pow]
                    omega
                  have e2 : c.toNat &&& 15 < 16 := by
                    have := Nat.and_le_right (n := c.toNat) (m := 15)
                    omega
                  rw [hexVal_hexDigit _ e1, hexVal_hexDigit _ e2,
                    shift_and_recompose c.toNat h8, char_ofNat_toNat_low c h8]
                · have hesc : escapeChar c = [c] := by
                    rw [escapeChar, if_neg h1, if_neg h2, if_neg h3, if_neg h4, if_neg h5,
                      if_neg h6, if_neg h7, if_neg h8]
                  rw [hesc]
                  show unescape (c :: rest) = some (c, rest)
                  rw [unescape.eq_def]
                  simp [h2]

theorem escapeChar_head_ne_quote (c : Char) : ∃ d t, escapeChar c = d :: t ∧ d ≠ '"' := by
  by_cases h1 : c = '"'
  · subst h1; exact ⟨'\\', ['"'], rfl, by decide⟩
  · by_cases h2 : c = '\\'
    · subst h2; exact ⟨'\\', ['\\'], rfl, by decide⟩
    · by_cases h3 : c.toNat = 8
      · exact ⟨'\\', ['b'], by rw [escapeChar, if_neg h1, if_neg h2, if_pos h3], by decide⟩
      · by_cases h4 : c.toNat = 9
        · exact ⟨'\\', ['t'],
            by rw [escapeChar, if_neg h1, if_neg h2, if_neg h3, if_pos h4], by decide⟩
        · by_cases h5 : c.toNat = 10
          · exact ⟨'\\', ['n'],
              by rw [escapeChar, if_neg h1, if_neg h2, if_neg h3, if_neg h4, if_pos h5],
              by decide⟩
          · by_cases h6 : c.toNat = 12
            · exact ⟨'\\', ['f'],
                by rw [escapeChar, if_neg h1, if_neg h2, if_neg h3, if_neg h4, if_neg h5,
                  if_pos h6],
                by decide⟩
            · by_cases h7 : c.toNat = 13
              · exact ⟨'\\', ['r'],
                  by rw [escapeChar, if_neg h1, if_neg h2, if_neg h3, if_neg h4, if_neg h5,
                    if_neg h6, if_pos h7],
                  by decide⟩
              · by_cases h8 : c.toNat < 32
                · exact ⟨'\\', ['u', '0', '0', hexDigit (c.toNat >>> 4),
                      hexDigit (c.toNat &&& 15)],
                    by rw [escapeChar, if_neg h1, if_neg h2, if_neg h3, if_neg h4, if_neg h5,
                      if_neg h6, if_neg h7, if_pos h8],
                    by decide⟩
                · exact ⟨c, [],
                    by rw [escapeChar, if_neg h1, if_neg h2, if_neg h3, if_neg h4, if_neg h5,
                      if_neg h6, if_neg h7, if_neg h8],
                    h1⟩

/-- Escaped string bodies followed by closing quote and continuation coincide
segment by segment. -/
theorem esc_run_eq (cs1 : List Char) :
    ∀ cs2 r1 r2,
      (cs1.map escapeChar).flatten ++ '"' :: r1
        = (cs2.map escapeChar).flatten ++ '"' :: r2 →
      cs1 = cs2 ∧ r1 = r2 := by
  induction cs1 with
  | nil =>
      intro cs2 r1 r2 heq
      cases cs2 with
      | nil =>
          simp only [List.map_nil, List.flatten_nil, List.nil_append,
            List.cons.injEq] at heq
          exact ⟨rfl, heq.2⟩
      | cons c cs2' =>
          obtain ⟨d, t, hdt, hne⟩ := escapeChar_head_ne_quote c
          simp only [List.map_nil, List.flatten_nil, List.nil_append, List.map_cons,
            List.flatten_cons, List.append_assoc] at heq
          rw [hdt] at heq
          simp only [List.cons_append, List.cons.injEq] at heq
          exact absurd heq.1.symm hne
  | cons c1 t1 ih =>
      intro cs2 r1 r2 heq
      cases cs2 with
      | nil =>
          obtain ⟨d, t, hdt, hne⟩ := escapeChar_head_ne_quote c1
          simp only [List.map_nil, List.flatten_nil, List.nil_append, List.map_cons,
            List.flatten_cons, List.append_assoc] at heq
          rw [hdt] at heq
          simp only [List.cons_append, List.cons.injEq] at heq
          exact absurd heq.1 hne
      | cons c2 t2 =>
          simp only [List.map_cons, List.flatten_cons, List.append_assoc] at heq
          have hu1 := unescape_escape c1 ((t1.map escapeChar).flatten ++ '"' :: r1)
          have hu2 := unescape_escape c2 ((t2.map escapeChar).flatten ++ '"' :: r2)
          rw [heq] at hu1
          rw [hu2] at hu1
          injection hu1 with hpair
          have hc : c2 = c1 := congrArg Prod.fst hpair
          have hX := congrArg Prod.snd hpair
          subst hc
          obtain ⟨ht, hr⟩ := ih t2 r1 r2 hX.symm
          rw [ht]
          exact ⟨rfl, hr⟩

/-- String literals are prefix-injective with arbitrary continuations. -/
theorem renderString_pre_inj (s1 s2 : String) (r1 r2 : List Char)
    (h : renderString s1 ++ r1 = renderString s2 ++ r2) : s1 = s2 ∧ r1 = r2 := by
  rw [renderString, renderString] at h
  simp only [List.cons_append, List.append_assoc, List.singleton_append,
    List.cons.injEq] at h
  obtain ⟨hs, hr⟩ := esc_run_eq s1.toList s2.toList r1 r2 h.2
  exact ⟨string_toList_inj hs, hr⟩

/-! ## Render grammar: head characters and full injectivity -/

theorem renderInt_head (i : Int) :
    ∃ c t, renderInt i = c :: t ∧ (c = '-' ∨ isDigit c = true) := by
  rw [renderInt]
  by_cases h : i < 0
  · rw [if_pos h]
    exact ⟨'-', renderNat i.natAbs, rfl, Or.inl rfl⟩
  · rw [if_neg h]
    obtain ⟨c, t, hct⟩ := List.exists_cons_of_ne_nil (renderNat_ne_nil i.natAbs)
    exact ⟨c, t, hct,
      Or.inr (renderNat_all_digits _ c (by rw [hct]; exact List.mem_cons_self c t))⟩

theorem render_head (v : Jv) : ∃ c t, render v = c :: t ∧ headOk c := by
  cases v with
  | null => exact ⟨'n', ['u', 'l', 'l'], rfl, Or.inl rfl⟩
  | bool b =>
      cases b with
      | false => exact ⟨'f', ['a', 'l', 's', 'e'], rfl, Or.inr (Or.inr (Or.inl rfl))⟩
      | true => exact ⟨'t', ['r', 'u', 'e'], rfl, Or.inr (Or.inl rfl)⟩
  | num n =>
      obtain ⟨c, t, hct, hc⟩ := renderInt_head n
      refine ⟨c, t, hct, ?_⟩
      rcases hc with rfl | hd
      · exact Or.inr (Or.inr (Or.inr (Or.inl rfl)))
      · exact Or.inr (Or.inr (Or.inr (Or.inr (Or.inl hd))))
  | str s =>
      exact ⟨'"', (s.toList.map escapeChar).flatten ++ ['"'], rfl,
        Or.inr (Or.inr (Or.inr (Or.inr (Or.inr (Or.inl rfl)))))⟩
  | arr xs =>
      exact ⟨'[', renderElems xs ++ [']'], rfl,
        Or.inr (Or.inr (Or.inr (Or.inr (Or.inr (Or.inr (Or.inl rfl))))))⟩
  | obj fs =>
      exact ⟨'\x7b', renderFields fs ++ ['\x7d'], rfl,
        Or.inr (Or.inr (Or.inr (Or.inr (Or.inr (Or.inr (Or.inr rfl))))))⟩

theorem headOk_ne (c : Char) (h : headOk c) :
    c ≠ ']' ∧ c ≠ ',' ∧ c ≠ '\x7d' ∧ c ≠ ':' := by
  rcases h with rfl | rfl | rfl | rfl | hd | rfl | rfl | rfl
  · exact ⟨by decide, by decide, by decide, by decide⟩
  · exact ⟨by decide, by decide, by decide, by decide⟩
  · exact ⟨by decide, by decide, by decide, by decide⟩
  · exact ⟨by decide, by decide, by decide, by decide⟩
  · refine ⟨fun he => ?_, fun he => ?_, fun he => ?_, fun he => ?_⟩ <;>
      (subst he; exact absurd hd (by decide))
  · exact ⟨by decide, by decide, by decide, by decide⟩
  · exact ⟨by decide, by decide, by decide, by decide⟩
  · exact ⟨by decide, by decide, by decide, by decide⟩

theorem renderElems_cons (y : Jv) (ys : List Jv) :
    ∃ tl, renderElems (y :: ys) = render y ++ tl := by
  cases ys with
  | nil =>
      refine ⟨[], ?_⟩
      rw [List.append_nil]
      rfl
  | cons z zs => exact ⟨',' :: renderElems (z :: zs), rfl⟩

theorem renderFields_cons (q : String × Jv) (gs : List (String × Jv)) :
    ∃ tl, renderFields (q :: gs) = renderString q.1 ++ tl := by
  cases gs with
  | nil => exact ⟨':' :: render q.2, rfl⟩
  | cons z zs =>
      exact ⟨(':' :: render q.2) ++ ',' :: renderFields (z :: zs),
        by simp [renderFields, List.append_assoc]⟩

/-- Array element lists are prefix-injective before the closing bracket. -/
theorem renderElems_pre_inj (xs : List Jv) :
    ∀ ys r1 r2,
      (∀ x ∈ xs, ∀ w s1 s2, digitStart s1 = false → digitStart s2 = false →
        render x ++ s1 = render w ++ s2 → x = w ∧ s1 = s2) →
      renderElems xs ++ ']' :: r1 = renderElems ys ++ ']' :: r2 →
      xs = ys ∧ r1 = r2 := by
  induction xs with
  | nil =>
      intro ys r1 r2 _ heq
      cases ys with
      | nil =>
          simp only [renderElems, List.nil_append, List.cons.injEq] at heq
          exact ⟨rfl, heq.2⟩
      | cons y ys' =>
          obtain ⟨c, t, hct, hok⟩ := render_head y
          obtain ⟨tl, htl⟩ := renderElems_cons y ys'
          rw [htl, hct] at heq
          simp only [renderElems, List.nil_append, List.cons_append, List.append_assoc,
            List.cons.injEq] at heq
          exact absurd heq.1.symm (headOk_ne c hok).1
  | cons x xs' ih =>
      intro ys r1 r2 hIH heq
      cases ys with
      | nil =>
          obtain ⟨c, t, hct, hok⟩ := render_head x
          obtain ⟨tl, htl⟩ := renderElems_cons x xs'
          rw [htl, hct] at heq
          simp only [renderElems, List.nil_append, List.cons_append, List.append_assoc,
            List.cons.injEq] at heq
          exact absurd heq.1 (headOk_ne c hok).1
      | cons y ys' =>
          cases xs' with
          | nil =>
              cases ys' with
              | nil =>
                  simp only [renderElems] at heq
                  obtain ⟨hxy, hr⟩ := hIH x (List.mem_cons_self x []) y
                    (']' :: r1) (']' :: r2) rfl rfl heq
                  simp only [List.cons.injEq] at hr
                  exact ⟨by rw [hxy], hr.2⟩
              | cons y2 ys'' =>
                  simp only [renderElems, List.cons_append, List.append_assoc] at heq
                  obtain ⟨hxy, hr⟩ := hIH x (List.mem_cons_self x []) y
                    (']' :: r1) (',' :: (renderElems (y2 :: ys'') ++ ']' :: r2)) rfl rfl heq
                  simp only [List.cons.injEq] at hr
                  exact absurd hr.1 (by decide)
          | cons x2 xs'' =>
              cases ys' with
              | nil =>
                  simp only [renderElems, List.cons_append, List.append_assoc] at heq
                  obtain ⟨hxy, hr⟩ := hIH x (List.mem_cons_self x _) y
                    (',' :: (renderElems (x2 :: xs'') ++ ']' :: r1)) (']' :: r2) rfl rfl heq
                  simp only [List.cons.injEq] at hr
                  exact absurd hr.1 (by decide)
              | cons y2 ys'' =>
                  simp only [renderElems, List.cons_append, List.append_assoc] at heq
                  obtain ⟨hxy, hr⟩ := hIH x (List.mem_cons_self x _) y
                    (',' :: (renderElems (x2 :: xs'') ++ ']' :: r1))
                    (',' :: (renderElems (y2 :: ys'') ++ ']' :: r2)) rfl rfl heq
                  simp only [List.cons.injEq] at hr
                  obtain ⟨hrest, hr12⟩ := ih (y2 :: ys'') r1 r2
                    (fun z hz => hIH z (List.mem_cons_of_mem x hz)) hr.2
                  exact ⟨by rw [hxy, hrest], hr12⟩

/-- Object field lists are prefix-injective before the closing brace. -/
theorem renderFields_pre_inj (fs : List (String × Jv)) :
    ∀ gs r1 r2,
      (∀ p ∈ fs, ∀ w s1 s2, digitStart s1 = false → digitStart s2 = false →
        render p.2 ++ s1 = render w ++ s2 → p.2 = w ∧ s1 = s2) →
      renderFields fs ++ '\x7d' :: r1 = renderFields gs ++ '\x7d' :: r2 →
      fs = gs ∧ r1 = r2 := by
  induction fs with
  | nil =>
      intro gs r1 r2 _ heq
      cases gs with
      | nil =>
          simp only [renderFields, List.nil_append, List.cons.injEq] at heq
          exact ⟨rfl, heq.2⟩
      | cons q gs' =>
          obtain ⟨tl, htl⟩ := renderFields_cons q gs'
          rw [htl, renderString] at heq
          simp only [renderFields, List.nil_append, List.cons_append, List.append_assoc,
            List.cons.injEq] at heq
          exact absurd heq.1 (by decide)
  | cons p fs' ih =>
      intro gs r1 r2 hIH heq
      cases gs with
      | nil =>
          obtain ⟨tl, htl⟩ := renderFields_cons p fs'
          rw [htl, renderString] at heq
          simp only [renderFields, List.nil_append, List.cons_append, List.append_assoc,
            List.cons.injEq] at heq
          exact absurd heq.1 (by decide)
      | cons q gs' =>
          obtain ⟨k1, v1⟩ := p
          obtain ⟨k2, v2⟩ := q
          cases fs' with
          | nil =>
              cases gs' with
              | nil =>
                  simp only [renderFields, List.cons_append, List.append_assoc] at heq
                  obtain ⟨hk, hrest⟩ := renderString_pre_inj k1 k2 _ _ heq
                  simp only [List.cons.injEq] at hrest
                  obtain ⟨hv, hr⟩ := hIH (k1, v1) (List.mem_cons_self _ _) v2
                    ('\x7d' :: r1) ('\x7d' :: r2) rfl rfl hrest.2
                  simp only [List.cons.injEq] at hr
                  refine ⟨?_, hr.2⟩
                  have hv' : v1 = v2 := hv
                  rw [hk, hv']
              | cons q2 gs'' =>
                  simp only [renderFields, List.cons_append, List.append_assoc] at heq
                  obtain ⟨hk, hrest⟩ := renderString_pre_inj k1 k2 _ _ heq
                  simp only [List.cons.injEq] at hrest
                  obtain ⟨hv, hr⟩ := hIH (k1, v1) (List.mem_cons_self _ _) v2
                    ('\x7d' :: r1) (',' :: (renderFields (q2 :: gs'') ++ '\x7d' :: r2))
                    rfl rfl hrest.2
                  simp only [List.cons.injEq] at hr
                  exact absurd hr.1 (by decide)
          | cons p2 fs'' =>
              cases gs' with
              | nil =>
                  simp only [renderFields, List.cons_append, List.append_assoc] at heq
                  obtain ⟨hk, hrest⟩ := renderString_pre_inj k1 k2 _ _ heq
                  simp only [List.cons.injEq] at hrest
                  obtain ⟨hv, hr⟩ := hIH (k1, v1) (List.mem_cons_self _ _) v2
                    (',' :: (renderFields (p2 :: fs'') ++ '\x7d' :: r1)) ('\x7d' :: r2)
                    rfl rfl hrest.2
                  simp only [List.cons.injEq] at hr
                  exact absurd hr.1 (by decide)
              | cons q2 gs'' =>
                  simp only [renderFields, List.cons_append, List.append_assoc] at heq
                  obtain ⟨hk, hrest⟩ := renderString_pre_inj k1 k2 _ _ heq
                  simp only [List.cons.injEq] at hrest
                  obtain ⟨hv, hr⟩ := hIH (k1, v1) (List.mem_cons_self _ _) v2
                    (',' :: (renderFields (p2 :: fs'') ++ '\x7d' :: r1))
                    (',' :: (renderFields (q2 :: gs'') ++ '\x7d' :: r2)) rfl rfl hrest.2
                  simp only [List.cons.injEq] at hr
                  obtain ⟨hfg, hr12⟩ := ih (q2 :: gs'') r1 r2
                    (fun z hz => hIH z (List.mem_cons_of_mem _ hz)) hr.2
                  refine ⟨?_, hr12⟩
                  have hv' : v1 = v2 := hv
                  rw [hk, hv', hfg]

/-- `JSON.stringify` output is prefix-injective among continuations that do
not start with a digit. -/
theorem render_pre_inj (v : Jv) :
    ∀ w r1 r2, digitStart r1 = false → digitStart r2 = false →
      render v ++ r1 = render w ++ r2 → v = w ∧ r1 = r2 := by
  refine jv_ind
    (fun v => ∀ w r1 r2, digitStart r1 = false → digitStart r2 = false →
      render v ++ r1 = render w ++ r2 → v = w ∧ r1 = r2)
    ?_ ?_ ?_ ?_ ?_ ?_ v
  · intro w r1 r2 hr1 hr2 heq
    cases w with
    | null =>
        simp only [render, List.cons_append, List.nil_append, List.cons.injEq] at heq
        exact ⟨rfl, heq.2.2.2.2⟩
    | bool b =>
        cases b <;>
          (simp only [render, List.cons_append, List.nil_append, List.cons.injEq] at heq;
            exact absurd heq.1 (by decide))
    | num n =>
        obtain ⟨c, t, hct, hc⟩ := renderInt_head n
        simp only [render] at heq
        rw [hct] at heq
        simp only [List.cons_append, List.nil_append, List.cons.injEq] at heq
        rcases hc with rfl | hd
        · exact absurd heq.1 (by decide)
        · rw [← heq.1] at hd
          exact absurd hd (by decide)
    | str s =>
        simp only [render, renderString, List.cons_append, List.nil_append,
          List.cons.injEq] at heq
        exact absurd heq.1 (by decide)
    | arr ys =>
        simp only [render, List.cons_append, List.nil_append, List.cons.injEq] at heq
        exact absurd heq.1 (by decide)
    | obj gs =>
        simp only [render, List.cons_append, List.nil_append, List.cons.injEq] at heq
        exact absurd heq.1 (by decide)
  · intro b w r1 r2 hr1 hr2 heq
    cases w with
    | null =>
        cases b <;>
          (simp only [render, List.cons_append, List.nil_append, List.cons.injEq] at heq;
            exact absurd heq.1 (by decide))
    | bool b' =>
        cases b <;> cases b' <;>
          simp only [render, List.cons_append, List.nil_append, List.cons.injEq] at heq
        · exact ⟨rfl, heq.2.2.2.2.2⟩
        · exact absurd heq.1 (by decide)
        · exact absurd heq.1 (by decide)
        · exact ⟨rfl, heq.2.2.2.2⟩
    | num n =>
        obtain ⟨c, t, hct, hc⟩ := renderInt_head n
        cases b <;>
          (simp only [render] at heq; rw [hct] at heq;
            simp only [List.cons_append, List.nil_append, List.cons.injEq] at heq)
        · rcases hc with rfl | hd
          · exact absurd heq.1 (by decide)
          · rw [← heq.1] at hd
            exact absurd hd (by decide)
        · rcases hc with rfl | hd
          · exact absurd heq.1 (by decide)
          · rw [← heq.1] at hd
            exact absurd hd (by decide)
    | str s =>
        cases b <;>
          (simp only [render, renderString, List.cons_append, List.nil_append,
            List.cons.injEq] at heq;
            exact absurd heq.1 (by decide))
    | arr ys =>
        cases b <;>
          (simp only [render, List.cons_append, List.nil_append, List.cons.injEq] at heq;
            exact absurd heq.1 (by decide))
    | obj gs =>
        cases b <;>
          (simp only [render, List.cons_append, List.nil_append, List.cons.injEq] at heq;
            exact absurd heq.1 (by decide))
  · intro n w r1 r2 hr1 hr2 heq
    obtain ⟨c, t, hct, hc⟩ := renderInt_head n
    cases w with
    | null =>
        simp only [render] at heq
        rw [hct] at heq
        simp only [List.cons_append, List.nil_append, List.cons.injEq] at heq
        rcases hc with rfl | hd
        · exact absurd heq.1 (by decide)
        · rw [heq.1] at hd
          exact absurd hd (by decide)
    | bool b =>
        cases b <;>
          (simp only [render] at heq; rw [hct] at heq;
            simp only [List.cons_append, List.nil_append, List.cons.injEq] at heq)
        · rcases hc with rfl | hd
          · exact absurd heq.1 (by decide)
          · rw [heq.1] at hd
            exact absurd hd (by decide)
        · rcases hc with rfl | hd
          · exact absurd heq.1 (by decide)
          · rw [heq.1] at hd
            exact absurd hd (by decide)
    | num n' =>
        simp only [render] at heq
        obtain ⟨hn, hr⟩ := renderInt_pre_inj n n' r1 r2 hr1 hr2 heq
        exact ⟨by rw [hn], hr⟩
    | str s =>
        simp only [render, renderString] at heq
        rw [hct] at heq
        simp only [List.cons_append, List.nil_append, List.cons.injEq] at heq
        rcases hc with rfl | hd
        · exact absurd heq.1 (by decide)
        · rw [heq.1] at hd
          exact absurd hd (by decide)
    | arr ys =>
        simp only [render] at heq
        rw [hct] at heq
        simp only [List.cons_append, List.nil_append, List.cons.injEq] at heq
        rcases hc with rfl | hd
        · exact absurd heq.1 (by decide)
        · rw [heq.1] at hd
          exact absurd hd (by decide)
    | obj gs =>
        simp only [render] at heq
        rw [hct] at heq
        simp only [List.cons_append, List.nil_append, List.cons.injEq] at heq
        rcases hc with rfl | hd
        · exact absurd heq.1 (by decide)
        · rw [heq.1] at hd
          exact absurd hd (by decide)
  · intro s w r1 r2 hr1 hr2 heq
    cases w with
    | null =>
        simp only [render, renderString, List.cons_append, List.nil_append,
          List.cons.injEq] at heq
        exact absurd heq.1 (by decide)
    | bool b =>
        cases b <;>
          (simp only [render, renderString, List.cons_append, List.nil_append,
            List.cons.injEq] at heq;
            exact absurd heq.1 (by decide))
    | num n =>
        obtain ⟨c, t, hct, hc⟩ := renderInt_head n
        simp only [render, renderString] at heq
        rw [hct] at heq
        simp only [List.cons_append, List.nil_append, List.cons.injEq] at heq
        rcases hc with rfl | hd
        · exact absurd heq.1 (by decide)
        · rw [← heq.1] at hd
          exact absurd hd (by decide)
    | str s' =>
        simp only [render] at heq
        obtain ⟨hs, hr⟩ := renderString_pre_inj s s' r1 r2 heq
        exact ⟨by rw [hs], hr⟩
    | arr ys =>
        simp only [render, renderString, List.cons_append, List.nil_append,
          List.cons.injEq] at heq
        exact absurd heq.1 (by decide)
    | obj gs =>
        simp only [render, renderString, List.cons_append, List.nil_append,
          List.cons.injEq] at heq
        exact absurd heq.1 (by decide)
  · intro xs hx w r1 r2 hr1 hr2 heq
    cases w with
    | null =>
        simp only [render, List.cons_append, List.nil_append, List.cons.injEq] at heq
        exact absurd heq.1 (by decide)
    | bool b =>
        cases b <;>
          (simp only [render, List.cons_append, List.nil_append, List.cons.injEq] at heq;
            exact absurd heq.1 (by decide))
    | num n =>
        obtain ⟨c, t, hct, hc⟩ := renderInt_head n
        simp only [render] at heq
        rw [hct] at heq
        simp only [List.cons_append, List.nil_append, List.cons.injEq] at heq
        rcases hc with rfl | hd
        · exact absurd heq.1 (by decide)
        · rw [← heq.1] at hd
          exact absurd hd (by decide)
    | str s =>
        simp only [render, renderString, List.cons_append, List.nil_append,
          List.cons.injEq] at heq
        exact absurd heq.1 (by decide)
    | arr ys =>
        simp only [render, List.cons_append, List.append_assoc, List.singleton_append,
          List.cons.injEq] at heq
        obtain ⟨hxy, hr⟩ := renderElems_pre_inj xs ys r1 r2 hx heq.2
        exact ⟨by rw [hxy], hr⟩
    | obj gs =>
        simp only [render, List.cons_append, List.nil_append, List.cons.injEq] at heq
        exact absurd heq.1 (by decide)
  · intro fs hf w r1 r2 hr1 hr2 heq
    cases w with
    | null =>
        simp only [render, List.cons_append, List.nil_append, List.cons.injEq] at heq
        exact absurd heq.1 (by decide)
    | bool b =>
        cases b <;>
          (simp only [render, List.cons_append, List.nil_append, List.cons.injEq] at heq;
            exact absurd heq.1 (by decide))
    | num n =>
        obtain ⟨c, t, hct, hc⟩ := renderInt_head n
        simp only [render] at heq
        rw [hct] at heq
        simp only [List.cons_append, List.nil_append, List.cons.injEq] at heq
        rcases hc with rfl | hd
        · exact absurd heq.1 (by decide)
        · rw [← heq.1] at hd
          exact absurd hd (by decide)
    | str s =>
        simp only [render, renderString, List.cons_append, List.nil_append,
          List.cons.injEq] at heq
        exact absurd heq.1 (by decide)
    | arr ys =>
        simp only [render, List.cons_append, List.nil_append, List.cons.injEq] at heq
        exact absurd heq.1 (by decide)
    | obj gs =>
        simp only [render, List.cons_append, List.append_assoc, List.singleton_append,
          List.cons.injEq] at heq
        obtain ⟨hfg, hr⟩ := renderFields_pre_inj fs gs r1 r2 hf heq.2
        exact ⟨by rw [hfg], hr⟩

/-- `JSON.stringify` is injective on embedded JSON values. -/
theorem render_inj {v w : Jv} (h : render v = render w) : v = w := by
  have hp := render_pre_inj v w [] [] rfl rfl
    (by rw [List.append_nil, List.append_nil, h])
  exact hp.1

/-- Equal canonical strings force equal canonical (key-sorted) forms. -/
theorem canonicalize_inj {v w : Jv} (h : canonicalize v = canonicalize w) :
    sortObject v = sortObject w := by
  unfold canonicalize at h
  have hdata : render (sortObject v) = render (sortObject w) := congrArg String.data h
  exact render_inj hdata

/-! # Claims -/

/-- C1: for every rule set and request context, if the request's action is a
member of `deny_actions`, `evaluatePolicy` returns decision `BLOCK` with reason
`action_denied_by_policy`, regardless of the rule set's mode and regardless of
whether the action is also in `allow_actions`. -/
theorem C1_deny_precedence (rules : PolicyRules) (ctx : PolicyEvaluationContext)
    (hdeny : rules.deny_actions.contains ctx.action = true) :
    (evaluatePolicy rules ctx).decision = .BLOCK ∧
      (evaluatePolicy rules ctx).reason = "action_denied_by_policy" := by
  have hm : ctx.action ∈ rules.deny_actions := by simpa using hdeny
  unfold evaluatePolicy
  simp [hm]

/-- C1 at Scenario A: mode `STRICT`, `delete` both allowed and denied, request
`crm`/`delete`. -/
theorem C1_deny_precedence_witness :
    (⟨.STRICT, ["delete"], ["delete"], [], [], []⟩ : PolicyRules).deny_actions.contains
        "delete" = true ∧
      (evaluatePolicy ⟨.STRICT, ["delete"], ["delete"], [], [], []⟩
          ⟨"crm", "delete", none, none⟩).decision = .BLOCK ∧
      (evaluatePolicy ⟨.STRICT, ["delete"], ["delete"], [], [], []⟩
          ⟨"crm", "delete", none, none⟩).reason = "action_denied_by_policy" :=
  ⟨by decide, C1_deny_precedence _ ⟨"crm", "delete", none, none⟩ (by decide)⟩

/-- C6: for every action, decision, context and signal list, appending any
recognized signal never decreases `computeRiskScore`, and the returned value
always lies in `[0, 100]`. -/
theorem C6_risk_monotone_bounded (signals : List String) (s : String) (action : String)
    (decision : Decision) (context : RiskScoreContext) (hs : s ∈ RECOGNIZED_SIGNALS) :
    computeRiskScore signals action decision context
        ≤ computeRiskScore (signals ++ [s]) action decision context ∧
      0 ≤ computeRiskScore signals action decision context ∧
      computeRiskScore signals action decision context ≤ 100 := by
  refine ⟨?_, ?_, ?_⟩
  · rw [computeRiskScore_eq, computeRiskScore_eq]
    have hsub : ∀ x, signals.contains x = true → (signals ++ [s]).contains x = true :=
      fun x hx => contains_append_self signals s x hx
    refine max_le_max (le_refl 0) (min_le_min (le_refl 100) ?_)
    gcongr <;> first
      | exact ite_contains_mono hsub _ _ (by norm_num)
      | exact le_refl _
  · rw [computeRiskScore_eq]
    exact le_max_left 0 _
  · rw [computeRiskScore_eq]
    exact max_le (by norm_num) (min_le_left 100 _)

/-- C6 instantiated: appending `burst_rate` to an empty signal list for a
`read`/`ALLOW` evaluation with an empty context. -/
theorem C6_risk_monotone_bounded_witness :
    "burst_rate" ∈ RECOGNIZED_SIGNALS ∧
      (computeRiskScore [] "read" .ALLOW {}
          ≤ computeRiskScore (([] : List String) ++ ["burst_rate"]) "read" .ALLOW {} ∧
        0 ≤ computeRiskScore [] "read" .ALLOW {} ∧
        computeRiskScore [] "read" .ALLOW {} ≤ 100) :=
  ⟨by decide, C6_risk_monotone_bounded [] "burst_rate" "read" .ALLOW {} (by decide)⟩

/-- C8 counterexample: with a pre-update baseline of five samples and a zero
average calls-per-minute, a burst rate of 10 satisfies the claimed condition
(`sampleCount ≥ 5` and `burstRate / max(1, avg) = 10 / 1 ≥ 2`), yet the code
never emits `behavior_drift` — the source fixes the multiplier to `1` whenever
the baseline average is zero instead of dividing by `max(1, 0)`. -/
theorem C8_drift_zero_average_counterexample :
    ((some (⟨0, 0, 5, 0⟩ : Baseline)).map (·.sampleCount)).getD 0 ≥ 5 ∧
      (10 : ℚ) / max 1 (((some (⟨0, 0, 5, 0⟩ : Baseline)).map (·.avgPerMinute)).getD 0) ≥ 2 ∧
      "behavior_drift" ∉ deriveContextSignals (some ⟨0, 0, 5, 0⟩) 10 false "read" :=
  ⟨by decide, by decide, by decide⟩

/-- C8 (amended): `behavior_drift` is emitted iff the pre-update baseline has
`sampleCount ≥ 5`, its average calls-per-minute is strictly positive, and
`burstRate / max(1, avg) ≥ 2`; when the baseline average is zero the burst
multiplier is the constant `1`, so the signal is never emitted. No other stage
(in particular not `evaluatePolicy`) emits `behavior_drift`. -/
theorem C8_drift_signal_iff :
    (∀ (baseline : Option Baseline) (burstRate : ℚ) (isOffHours : Bool) (action : String),
      "behavior_drift" ∈ deriveContextSignals baseline burstRate isOffHours action ↔
        ((baseline.map (·.sampleCount)).getD 0 ≥ 5 ∧
          (baseline.map (·.avgPerMinute)).getD 0 > 0 ∧
          burstRate / max 1 ((baseline.map (·.avgPerMinute)).getD 0) ≥ 2)) ∧
    (∀ (rules : PolicyRules) (ctx : PolicyEvaluationContext),
      "behavior_drift" ∉ (evaluatePolicy rules ctx).signals) := by
  constructor
  · intro baseline burstRate isOffHours action
    have key : "behavior_drift" ∈ deriveContextSignals baseline burstRate isOffHours action ↔
        ((baseline.map (·.sampleCount)).getD 0 ≥ 5 ∧
          burstMultiplier baseline burstRate ≥ 2) := by
      unfold deriveContextSignals
      dsimp only
      by_cases hc : (baseline.map (·.sampleCount)).getD 0 ≥ 5 ∧
          burstMultiplier baseline burstRate ≥ 2
      · rw [if_pos hc]
        simp [hc]
      · rw [if_neg hc]
        simp only [List.nil_append]
        constructor
        · intro hmem
          rcases List.mem_append.mp hmem with h1 | h2
          · exact absurd h1 (not_mem_ite_singleton (by decide) _)
          · exact absurd h2 (not_mem_ite_singleton (by decide) _)
        · intro h
          exact absurd h hc
    rw [key]
    constructor
    · rintro ⟨h5, hm⟩
      unfold burstMultiplier at hm
      by_cases hpos : (baseline.map (·.avgPerMinute)).getD 0 > 0
      · rw [if_pos hpos] at hm
        exact ⟨h5, hpos, hm⟩
      · rw [if_neg hpos] at hm
        norm_num at hm
    · rintro ⟨h5, hpos, hge⟩
      refine ⟨h5, ?_⟩
      unfold burstMultiplier
      rw [if_pos hpos]
      exact hge
  · intro rules ctx hmem
    rcases evaluatePolicy_signal_cases rules ctx _ hmem with h | h | h <;>
      exact absurd h (by decide)

/-- C9 counterexample: an enabled `NOTIFY_WEBHOOK` playbook whose trigger
conditions match the event but whose `actionConfig` lacks a `url` produces an
execution record with status `EXECUTED` (message `Webhook URL missing in
playbook actionConfig`), not `FAILED` as the claim states; no HTTP call is
attempted. -/
theorem C9_missing_url_counterexample :
    (Playbook.mk "p1" "pb" true (some .BLOCK) 0 (.arr []) "NOTIFY_WEBHOOK" (some [])).enabled
        = true ∧
      playbookMatches ⟨"p1", "pb", true, some .BLOCK, 0, .arr [], "NOTIFY_WEBHOOK", some []⟩
          ⟨"w1", some "a1", "e1", .BLOCK, 50, [], "kb", "read", none, []⟩ = true ∧
      configStr ((some ([] : List (String × Jv))).getD []) "url" = "" ∧
      runPlaybook ⟨"p1", "pb", true, some .BLOCK, 0, .arr [], "NOTIFY_WEBHOOK", some []⟩
          ⟨"w1", some "a1", "e1", .BLOCK, 50, [], "kb", "read", none, []⟩ (.ok ())
        = ⟨.EXECUTED, "Webhook URL missing in playbook actionConfig", [], false, false, 0⟩ ∧
      (runPlaybook ⟨"p1", "pb", true, some .BLOCK, 0, .arr [], "NOTIFY_WEBHOOK", some []⟩
          ⟨"w1", some "a1", "e1", .BLOCK, 50, [], "kb", "read", none, []⟩ (.ok ())).status
        ≠ .FAILED :=
  ⟨by decide, by decide, by decide, by decide, by decide⟩

theorem runPlaybook_missing_url (pb : Playbook) (ev : EventFacts) (wr : Except String Unit)
    (htype : pb.actionType = "NOTIFY_WEBHOOK")
    (hmatch : playbookMatches pb ev = true)
    (hurl : configStr (pb.actionConfig.getD []) "url" = "") :
    runPlaybook pb ev wr
      = ⟨.EXECUTED, "Webhook URL missing in playbook actionConfig", [], false, false, 0⟩ := by
  unfold runPlaybook
  simp [hmatch, htype, hurl]

/-- C9 (amended): for every `NOTIFY_WEBHOOK` playbook whose trigger conditions
match the event, a missing `actionConfig.url` yields an execution record with
status `EXECUTED` and message `Webhook URL missing in playbook actionConfig`,
with no HTTP call attempted; and for an enabled such playbook the loop over
the workspace's playbooks records exactly that outcome. -/
theorem C9_missing_url_executed (pb : Playbook) (ev : EventFacts) (wr : Except String Unit)
    (htype : pb.actionType = "NOTIFY_WEBHOOK")
    (hmatch : playbookMatches pb ev = true)
    (hurl : configStr (pb.actionConfig.getD []) "url" = "") :
    (runPlaybook pb ev wr
        = ⟨.EXECUTED, "Webhook URL missing in playbook actionConfig", [], false, false, 0⟩ ∧
      (runPlaybook pb ev wr).webhookCalls = []) ∧
    ∀ (pbs : List Playbook) (f : String → Except String Unit),
      pb ∈ pbs → pb.enabled = true →
      (pb.id, (⟨.EXECUTED, "Webhook URL missing in playbook actionConfig", [], false, false,
          0⟩ : PlaybookOutcome)) ∈ runPlaybooksForEvent pbs ev f := by
  refine ⟨⟨runPlaybook_missing_url pb ev wr htype hmatch hurl, ?_⟩, ?_⟩
  · rw [runPlaybook_missing_url pb ev wr htype hmatch hurl]
  · intro pbs f hmem hen
    unfold runPlaybooksForEvent
    have hf : pb ∈ pbs.filter (·.enabled) := List.mem_filter.mpr ⟨hmem, by simp [hen]⟩
    refine List.mem_map.mpr ⟨pb, hf, ?_⟩
    dsimp only
    rw [runPlaybook_missing_url pb ev (f pb.id) htype hmatch hurl]

/-- C9 (amended) instantiated at the counterexample's playbook and event. -/
theorem C9_missing_url_executed_witness :
    (Playbook.mk "p1" "pb" true (some .BLOCK) 0 (.arr []) "NOTIFY_WEBHOOK"
          (some [])).actionType = "NOTIFY_WEBHOOK" ∧
      playbookMatches ⟨"p1", "pb", true, some .BLOCK, 0, .arr [], "NOTIFY_WEBHOOK", some []⟩
          ⟨"w1", some "a1", "e1", .BLOCK, 50, [], "kb", "read", none, []⟩ = true ∧
      ((runPlaybook ⟨"p1", "pb", true, some .BLOCK, 0, .arr [], "NOTIFY_WEBHOOK", some []⟩
            ⟨"w1", some "a1", "e1", .BLOCK, 50, [], "kb", "read", none, []⟩ (.ok ())
          = ⟨.EXECUTED, "Webhook URL missing in playbook actionConfig", [], false, false, 0⟩ ∧
        (runPlaybook ⟨"p1", "pb", true, some .BLOCK, 0, .arr [], "NOTIFY_WEBHOOK", some []⟩
            ⟨"w1", some "a1", "e1", .BLOCK, 50, [], "kb", "read", none, []⟩
            (.ok ())).webhookCalls = []) ∧
       ∀ (pbs : List Playbook) (f : String → Except String Unit),
        (⟨"p1", "pb", true, some .BLOCK, 0, .arr [], "NOTIFY_WEBHOOK", some []⟩ : Playbook)
            ∈ pbs →
          (Playbook.mk "p1" "pb" true (some .BLOCK) 0 (.arr []) "NOTIFY_WEBHOOK"
              (some [])).enabled = true →
          ((Playbook.mk "p1" "pb" true (some .BLOCK) 0 (.arr []) "NOTIFY_WEBHOOK"
              (some [])).id,
            (⟨.EXECUTED, "Webhook URL missing in playbook actionConfig", [], false, false,
                0⟩ : PlaybookOutcome)) ∈
            runPlaybooksForEvent pbs
              ⟨"w1", some "a1", "e1", .BLOCK, 50, [], "kb", "read", none, []⟩ f) :=
  ⟨rfl, by decide,
    C9_missing_url_executed _ _ (.ok ()) rfl (by decide) (by decide)⟩

/-- The payload the verifier rebuilds from an appended event is the payload
the append hashed. -/
theorem hashPayload_append (state : Option String) (e : AuditEventInput) (now : String) :
    ((appendAuditEvent state e now).1).hashPayload
      = createEventHashPayload e (e.createdAt.getD now) := rfl

theorem linkedFrom_appendAll (inputs : List (AuditEventInput × String)) :
    ∀ state, linkedFrom (state.getD "GENESIS") (appendAll state inputs) := by
  induction inputs with
  | nil => intro state; trivial
  | cons p rest ih =>
      intro state
      obtain ⟨e, now⟩ := p
      exact ⟨rfl, ih (some (appendAuditEvent state e now).2)⟩

theorem verifyFrom_cons_ok {seed : String} {ev : StoredEvent} {rest : List StoredEvent}
    (h1 : ev.prevHash = seed)
    (h2 : ev.hash = computeEventHash ev.prevHash ev.hashPayload) :
    verifyFrom seed (ev :: rest) = verifyFrom ev.hash rest := by
  show (if ev.prevHash ≠ seed then false
        else if ev.hash ≠ computeEventHash ev.prevHash ev.hashPayload then false
        else verifyFrom ev.hash rest) = verifyFrom ev.hash rest
  rw [if_neg (fun hne => hne h1), if_neg (fun hne => hne h2)]

theorem verifyFrom_appendAll (inputs : List (AuditEventInput × String)) :
    ∀ state, verifyFrom (state.getD "GENESIS") (appendAll state inputs) = true := by
  induction inputs with
  | nil => intro state; rfl
  | cons p rest ih =>
      intro state
      obtain ⟨e, now⟩ := p
      show verifyFrom (state.getD "GENESIS")
          ((appendAuditEvent state e now).1
            :: appendAll (some (appendAuditEvent state e now).2) rest) = true
      rw [@verifyFrom_cons_ok (state.getD "GENESIS") ((appendAuditEvent state e now).1)
        (appendAll (some (appendAuditEvent state e now).2) rest) rfl rfl]
      exact ih (some (appendAuditEvent state e now).2)

/-- Replacing any event of a chain by one whose stored hash does not match the
hash recomputed from its own stored fields makes the verifier reject. -/
theorem verifyFrom_set_tampered (events : List StoredEvent) :
    ∀ (i : Nat) (e' : StoredEvent) (seed : String),
      i < events.length →
      computeEventHash e'.prevHash e'.hashPayload ≠ e'.hash →
      verifyFrom seed (events.set i e') = false := by
  induction events with
  | nil => intro i e' seed hlt _; exact absurd hlt (Nat.not_lt_zero i)
  | cons ev rest ih =>
      intro i e' seed hlt hcol
      cases i with
      | zero =>
          show verifyFrom seed (e' :: rest) = false
          unfold verifyFrom
          by_cases h1 : e'.prevHash ≠ seed
          · rw [if_pos h1]
          · rw [if_neg h1, if_pos (Ne.symm hcol)]
      | succ n =>
          show verifyFrom seed (ev :: rest.set n e') = false
          unfold verifyFrom
          by_cases h1 : ev.prevHash ≠ seed
          · rw [if_pos h1]
          · rw [if_neg h1]
            by_cases h2 : ev.hash ≠ computeEventHash ev.prevHash ev.hashPayload
            · rw [if_pos h2]
            · rw [if_neg h2]
              exact ih n e' ev.hash (Nat.lt_of_succ_lt_succ hlt) hcol

/-- C2: a chain built purely by sequential appends from the `GENESIS` seed is
linked (`prevHash` of the first event is `GENESIS`, each later `prevHash` is
the previous event's `hash`) and verifies fully healthy; and replacing any
stored event by a mutated one — its `prevHash`/`hash` kept, some field changed
so that the recomputed hash no longer matches the stored hash — makes
`verifyHashChain` report the chain as not healthy. -/
theorem C2_chain_integrity :
    (∀ inputs : List (AuditEventInput × String), linkedFrom "GENESIS" (buildChain inputs)) ∧
    (∀ inputs : List (AuditEventInput × String),
      verifyHashChain (buildChain inputs) = true) ∧
    (∀ (inputs : List (AuditEventInput × String)) (i : Nat) (e' : StoredEvent),
      i < (buildChain inputs).length →
      computeEventHash e'.prevHash e'.hashPayload ≠ e'.hash →
      verifyHashChain ((buildChain inputs).set i e') = false) :=
  ⟨fun inputs => linkedFrom_appendAll inputs none,
   fun inputs => verifyFrom_appendAll inputs none,
   fun inputs i e' hlt hcol => verifyFrom_set_tampered (buildChain inputs) i e' "GENESIS"
     hlt hcol⟩

set_option maxHeartbeats 8000000 in
/-- C2 instantiated on the three-event fixture chain: the honest chain
verifies `true`; mutating the middle event's `tool` field (keeping its stored
hashes) changes its recomputed hash, and verification then yields `false`. -/
theorem C2_chain_integrity_witness :
    1 < (buildChain sampleInputs).length ∧
      computeEventHash sampleTampered.prevHash sampleTampered.hashPayload
        ≠ sampleTampered.hash ∧
      verifyHashChain (buildChain sampleInputs) = true ∧
      verifyHashChain ((buildChain sampleInputs).set 1 sampleTampered) = false :=
  ⟨by decide, by decide, C2_chain_integrity.2.1 sampleInputs,
    C2_chain_integrity.2.2 sampleInputs 1 sampleTampered (by decide) (by decide)⟩

theorem verifyFrom_true_iff (events : List StoredEvent) :
    ∀ seed, verifyFrom seed events = true ↔
      (linkedFrom seed events ∧
        ∀ ev ∈ events, ev.hash = computeEventHash ev.prevHash ev.hashPayload) := by
  induction events with
  | nil => intro seed; simp [verifyFrom, linkedFrom]
  | cons ev rest ih =>
      intro seed
      unfold verifyFrom linkedFrom
      by_cases h1 : ev.prevHash ≠ seed
      · rw [if_pos h1]
        simp [h1]
      · have he : ev.prevHash = seed := not_ne_iff.mp h1
        rw [if_neg h1]
        by_cases h2 : ev.hash ≠ computeEventHash ev.prevHash ev.hashPayload
        · rw [if_pos h2]
          simp [List.forall_mem_cons, h2]
        · have he2 : ev.hash = computeEventHash ev.prevHash ev.hashPayload :=
            not_ne_iff.mp h2
          rw [if_neg h2, ih ev.hash]
          simp only [List.forall_mem_cons, he, he2]
          tauto

theorem replayAux_some (rest : List StoredEvent) :
    ∀ prev : StoredEvent, replayAux (some prev.hash) rest
      = ((prev :: rest).zip rest).map fun pr => pr.2.prevHash == pr.1.hash := by
  induction rest with
  | nil => intro prev; rfl
  | cons e1 rest' ih =>
      intro prev
      show (e1.prevHash == prev.hash) :: replayAux (some e1.hash) rest' = _
      rw [ih e1]
      rfl

/-- C7 (amended): the boolean verifier (`verifyHashChain`) checks each event's
`prevHash` against the running hash and recomputes each expected hash from the
event's own fields — it returns `true` exactly when the chain is
GENESIS-linked and every stored hash matches its recomputation, but produces
no per-event verdicts; the per-event verdicts, break count and aggregate
`HEALTHY` status come from the forensics replay route, which marks the first
event `OK` unconditionally and marks a later event `BROKEN` exactly when its
`prevHash` differs from the previous event's stored hash — without ever
recomputing a hash — with the aggregate healthy iff the break count is zero. -/
theorem C7_verifier_and_replay :
    (∀ events : List StoredEvent,
      verifyHashChain events = true ↔
        (linkedFrom "GENESIS" events ∧
          ∀ ev ∈ events, ev.hash = computeEventHash ev.prevHash ev.hashPayload)) ∧
    (∀ (e0 : StoredEvent) (rest : List StoredEvent),
      replayTimeline (e0 :: rest)
        = true :: (((e0 :: rest).zip rest).map fun pr => pr.2.prevHash == pr.1.hash)) ∧
    (∀ events : List StoredEvent, (replayTimeline events).length = events.length) ∧
    (∀ events : List StoredEvent,
      chainStatusHealthy events = true ↔ integrityFailures events = 0) := by
  refine ⟨fun events => verifyFrom_true_iff events "GENESIS", ?_, ?_, ?_⟩
  · intro e0 rest
    show (true : Bool) :: replayAux (some e0.hash) rest = _
    rw [replayAux_some rest e0]
  · intro events
    unfold replayTimeline
    generalize (none : Option String) = prev
    induction events generalizing prev with
    | nil => rfl
    | cons e rest ih => simpa [replayAux] using ih (some e.hash)
  · intro events
    unfold chainStatusHealthy
    simp

set_option maxHeartbeats 8000000 in
/-- C7 counterexample, on the fixture chain with the middle event's `tool`
field mutated (stored hashes kept): the recomputed hash of the mutated event
no longer matches its stored hash — so the claimed verifier would mark it and
its successor `BROKEN` — yet the per-event verdicts are all `OK`, the break
count is `0` and the aggregate status is `HEALTHY`, because the replay route
only compares stored `prevHash` links and never recomputes hashes. (The
boolean verifier does reject the same chain, but yields no per-event
verdicts.) -/
theorem C7_replay_no_recompute_counterexample :
    computeEventHash sampleTampered.prevHash sampleTampered.hashPayload
        ≠ sampleTampered.hash ∧
      replayTimeline ((buildChain sampleInputs).set 1 sampleTampered)
        = [true, true, true] ∧
      integrityFailures ((buildChain sampleInputs).set 1 sampleTampered) = 0 ∧
      chainStatusHealthy ((buildChain sampleInputs).set 1 sampleTampered) = true ∧
      verifyHashChain ((buildChain sampleInputs).set 1 sampleTampered) = false :=
  ⟨by decide, by decide, by decide, by decide, by decide⟩

theorem findApproved_none_of_all_fail (store : ApprovalStore) (wsId agId reqId : String)
    (now : ℤ) (h : ∀ r ∈ store, r.id = reqId → ¬(approvedMatch wsId agId reqId now r = true)) :
    findApproved store wsId agId reqId now = none := by
  unfold findApproved
  rw [List.find?_eq_none]
  intro r hr hmatch
  by_cases hid : r.id = reqId
  · exact h r hr hid hmatch
  · unfold approvedMatch at hmatch
    simp only [Bool.and_eq_true, beq_iff_eq] at hmatch
    exact hid hmatch.1.1.1.1.1

theorem approvedMatch_fields {wsId agId reqId : String} {now : ℤ} {r : ApprovalRequest}
    (hmatch : approvedMatch wsId agId reqId now r = true) :
    r.id = reqId ∧ r.workspaceId = wsId ∧ r.agentId = agId ∧ r.status = .APPROVED ∧
      r.consumedAt = none ∧ now < r.expiresAt := by
  unfold approvedMatch at hmatch
  simp only [Bool.and_eq_true, beq_iff_eq, Option.isNone_iff_eq_none,
    decide_eq_true_eq] at hmatch
  exact ⟨hmatch.1.1.1.1.1, hmatch.1.1.1.1.2, hmatch.1.1.1.2, hmatch.1.1.2, hmatch.1.2,
    hmatch.2⟩

/-- The blocked branch of the gate, reached whenever no stored request passes
the consumption filter. -/
theorem approvalGate_block_of_none (reason : String) (signals : List String)
    (rules : PolicyRules) (store : ApprovalStore) (wsId agId tool action : String)
    (resource : Option String) (metadata : List (String × Jv))
    (aid : Option String) (requestedBy : Option String) (now : ℤ) (freshId : String)
    (hreq : requiresHumanApproval action rules = true)
    (hnone : (match aid with
              | some reqId => findApproved store wsId agId reqId now
              | none => none) = none) :
    approvalGate .ALLOW reason signals rules store wsId agId tool action resource metadata
        aid requestedBy now freshId
      = ⟨.BLOCK, "approval_required", signals ++ ["human_approval_required"], some freshId,
          store ++ [{ id := freshId, workspaceId := wsId, agentId := agId, tool := tool,
                      action := action, resource := resource, metadata := metadata,
                      status := .PENDING, riskScore := none,
                      requestedBy := requestedBy.getD "SYSTEM",
                      expiresAt := now + APPROVAL_TTL_MS, consumedAt := none,
                      resolvedByUserId := none, resolvedAt := none,
                      resolutionNote := none }]⟩ := by
  unfold approvalGate
  rw [if_pos ⟨rfl, hreq⟩]
  dsimp only
  rw [hnone]

/-- C5: an `APPROVED` request whose `expiresAt` lies in the past is never
consumable — the gate behaves exactly as if no prior request id had been
supplied: the decision is downgraded to `BLOCK` with reason
`approval_required`, the signal `human_approval_required` is added and a fresh
`PENDING` request is created, while the stored rows (in particular their
statuses) are left untouched — no `EXPIRED` transition is required. -/
theorem C5_expired_never_consumable (store : ApprovalStore) (reason : String)
    (signals : List String) (rules : PolicyRules) (wsId agId tool action : String)
    (resource : Option String) (metadata : List (String × Jv))
    (requestedBy : Option String) (reqId : String) (now : ℤ) (freshId : String)
    (hreq : requiresHumanApproval action rules = true)
    (hexp : ∀ q ∈ store, q.id = reqId → q.status = .APPROVED ∧ q.expiresAt < now) :
    approvalGate .ALLOW reason signals rules store wsId agId tool action resource metadata
        (some reqId) requestedBy now freshId
      = approvalGate .ALLOW reason signals rules store wsId agId tool action resource
          metadata none requestedBy now freshId ∧
    approvalGate .ALLOW reason signals rules store wsId agId tool action resource metadata
        (some reqId) requestedBy now freshId
      = ⟨.BLOCK, "approval_required", signals ++ ["human_approval_required"], some freshId,
          store ++ [{ id := freshId, workspaceId := wsId, agentId := agId, tool := tool,
                      action := action, resource := resource, metadata := metadata,
                      status := .PENDING, riskScore := none,
                      requestedBy := requestedBy.getD "SYSTEM",
                      expiresAt := now + APPROVAL_TTL_MS, consumedAt := none,
                      resolvedByUserId := none, resolvedAt := none,
                      resolutionNote := none }]⟩ := by
  have hfind : findApproved store wsId agId reqId now = none := by
    apply findApproved_none_of_all_fail
    intro r hr hid hmatch
    have h2 := (hexp r hr hid).2
    have h6 := (approvedMatch_fields hmatch).2.2.2.2.2
    omega
  have hsome := approvalGate_block_of_none reason signals rules store wsId agId tool action
    resource metadata (some reqId) requestedBy now freshId hreq hfind
  have hnone := approvalGate_block_of_none reason signals rules store wsId agId tool action
    resource metadata none requestedBy now freshId hreq rfl
  exact ⟨hsome.trans hnone.symm, hsome⟩

/-- C5 instantiated: one `APPROVED` request that expired at time 400, consumed
at time 500. -/
theorem C5_expired_never_consumable_witness :
    requiresHumanApproval "delete" ⟨.BALANCED, [], [], [], [], []⟩ = true ∧
      (∀ q ∈ [({ id := "r1", workspaceId := "w", agentId := "a", tool := "t",
                 action := "delete", resource := none, metadata := [], status := .APPROVED,
                 riskScore := none, requestedBy := "u", expiresAt := 400,
                 consumedAt := none, resolvedByUserId := none, resolvedAt := none,
                 resolutionNote := none } : ApprovalRequest)],
          q.id = "r1" → q.status = .APPROVED ∧ q.expiresAt < 500) ∧
      (approvalGate .ALLOW "allowed_by_policy_engine" [] ⟨.BALANCED, [], [], [], [], []⟩
          [{ id := "r1", workspaceId := "w", agentId := "a", tool := "t", action := "delete",
             resource := none, metadata := [], status := .APPROVED, riskScore := none,
             requestedBy := "u", expiresAt := 400, consumedAt := none,
             resolvedByUserId := none, resolvedAt := none, resolutionNote := none }]
          "w" "a" "t" "delete" none [] (some "r1") none 500 "fresh").decision = .BLOCK :=
  ⟨by decide, by decide,
    by rw [(C5_expired_never_consumable _ _ _ _ _ _ _ _ _ _ _ _ _ _
        (by decide) (by decide)).2]⟩

theorem mem_consume_update {store : ApprovalStore} {rid2 : String} {now : ℤ}
    {q : ApprovalRequest}
    (hq : q ∈ store.map fun r => if r.id == rid2 then { r with consumedAt := some now }
        else r) :
    q.consumedAt = some now ∨ q ∈ store := by
  rcases List.mem_map.mp hq with ⟨q0, hq0, hspec⟩
  by_cases hid : q0.id == rid2
  · rw [if_pos hid] at hspec
    exact Or.inl (hspec ▸ rfl)
  · rw [if_neg hid] at hspec
    exact Or.inr (hspec ▸ hq0)

theorem mem_resolve_update {store : ApprovalStore} {rid2 : String} {q : ApprovalRequest}
    {f : ApprovalRequest → ApprovalRequest}
    (hf : ∀ r, (f r).consumedAt = r.consumedAt ∧ (f r).id = r.id)
    (hq : q ∈ store.map fun r => if r.id == rid2 then f r else r) :
    ∃ q0 ∈ store, q.consumedAt = q0.consumedAt ∧ q.id = q0.id := by
  rcases List.mem_map.mp hq with ⟨q0, hq0, hspec⟩
  by_cases hid : q0.id == rid2
  · rw [if_pos hid] at hspec
    exact ⟨q0, hq0, hspec ▸ (hf q0).1, hspec ▸ (hf q0).2⟩
  · rw [if_neg hid] at hspec
    exact ⟨q0, hq0, hspec ▸ rfl, hspec ▸ rfl⟩

/-- Once every stored request bearing an id has a non-null `consumedAt`, no
single operation of the system produces a request with that id and a null
`consumedAt` — provided the operation does not mint that id as a fresh key. -/
theorem consumedAt_preserved (rid : String) (store : ApprovalStore) (op : ApprovalOp)
    (hinv : ∀ q ∈ store, q.id = rid → q.consumedAt ≠ none)
    (hfresh : rid ∉ opNewIds op) :
    ∀ q ∈ applyOp store op, q.id = rid → q.consumedAt ≠ none := by
  cases op with
  | gate d re sg ru w a t ac r m aid rb now fid =>
      intro q hq hid
      have hfid : fid ≠ rid := by
        intro h
        exact hfresh (h ▸ List.mem_singleton_self fid)
      simp only [applyOp] at hq
      unfold approvalGate at hq
      by_cases hrun : d = .ALLOW ∧ requiresHumanApproval ac ru = true
      · rw [if_pos hrun] at hq
        dsimp only at hq
        cases hfound : (match aid with
            | some reqId => findApproved store w a reqId now
            | none => none) with
        | some rr =>
            rw [hfound] at hq
            dsimp only at hq
            rcases mem_consume_update hq with hcons | hold
            · rw [hcons]; exact Option.some_ne_none now
            · exact hinv q hold hid
        | none =>
            rw [hfound] at hq
            dsimp only at hq
            rcases List.mem_append.mp hq with hold | hnew
            · exact hinv q hold hid
            · have : q.id = fid := by
                rw [List.mem_singleton.mp hnew]
              exact absurd (this ▸ hid) hfid
      · rw [if_neg hrun] at hq
        exact hinv q hq hid
  | approve rid2 u note now =>
      intro q hq hid
      simp only [applyOp] at hq
      unfold approveRequest at hq
      cases hfind : store.find? (fun r => r.id == rid2) with
      | none => rw [hfind] at hq; exact hinv q hq hid
      | some r0 =>
          rw [hfind] at hq
          dsimp only at hq
          by_cases hst : r0.status = .PENDING
          · rw [if_pos hst] at hq
            rcases mem_resolve_update (f := fun r =>
                { r with status := .APPROVED, resolvedByUserId := some u,
                         resolvedAt := some now, resolutionNote := note })
                (fun r => ⟨rfl, rfl⟩) hq with ⟨q0, hq0, hcons, hqid⟩
            rw [hcons]
            exact hinv q0 hq0 (hqid ▸ hid)
          · rw [if_neg hst] at hq
            exact hinv q hq hid
  | reject rid2 u note now =>
      intro q hq hid
      simp only [applyOp] at hq
      unfold rejectRequest at hq
      cases hfind : store.find? (fun r => r.id == rid2) with
      | none => rw [hfind] at hq; exact hinv q hq hid
      | some r0 =>
          rw [hfind] at hq
          dsimp only at hq
          by_cases hst : r0.status = .PENDING
          · rw [if_pos hst] at hq
            rcases mem_resolve_update (f := fun r =>
                { r with status := .REJECTED, resolvedByUserId := some u,
                         resolvedAt := some now, resolutionNote := note })
                (fun r => ⟨rfl, rfl⟩) hq with ⟨q0, hq0, hcons, hqid⟩
            rw [hcons]
            exact hinv q0 hq0 (hqid ▸ hid)
          · rw [if_neg hst] at hq
            exact hinv q hq hid
  | playbookApproval fid w a t ac r m rb risk ttl now =>
      intro q hq hid
      have hfid : fid ≠ rid := by
        intro h
        exact hfresh (h ▸ List.mem_singleton_self fid)
      simp only [applyOp] at hq
      rcases List.mem_append.mp hq with hold | hnew
      · exact hinv q hold hid
      · have : q.id = fid := by rw [List.mem_singleton.mp hnew]
        exact absurd (this ▸ hid) hfid

/-- The invariant of `consumedAt_preserved`, carried over a whole operation
sequence. -/
theorem consumedAt_preserved_ops (rid : String) (store : ApprovalStore)
    (ops : List ApprovalOp)
    (hinv : ∀ q ∈ store, q.id = rid → q.consumedAt ≠ none)
    (hfresh : ∀ op ∈ ops, rid ∉ opNewIds op) :
    ∀ q ∈ applyOps store ops, q.id = rid → q.consumedAt ≠ none := by
  induction ops generalizing store with
  | nil => exact hinv
  | cons op ops ih =>
      exact ih (applyOp store op)
        (consumedAt_preserved rid store op hinv (hfresh op (List.mem_cons_self op ops)))
        (fun o ho => hfresh o (List.mem_cons_of_mem op ho))

/-- C4: consumption of a supplied approval id succeeds exactly when a stored
request passes the `findFirst` filter (same id, workspace and agent, status
`APPROVED`, `consumedAt` null, unexpired); on success the decision stays
`ALLOW`, the reason is untouched, `human_approval_consumed` is emitted, and
every stored request bearing the id gets `consumedAt = now`; and once every
request bearing the id is consumed, no sequence of further operations (gate
evaluations, approvals, rejections, playbook-created requests — none minting
that id anew) can make a later evaluation bearing the same id consume again:
it blocks with `approval_required`. -/
theorem C4_single_use_consumption :
    (∀ (store : ApprovalStore) (reason : String) (signals : List String)
        (rules : PolicyRules) (wsId agId tool action : String) (resource : Option String)
        (metadata : List (String × Jv)) (requestedBy : Option String) (reqId : String)
        (now : ℤ) (freshId : String),
      requiresHumanApproval action rules = true →
      ((approvalGate .ALLOW reason signals rules store wsId agId tool action resource
            metadata (some reqId) requestedBy now freshId).decision = .ALLOW ↔
        ∃ r ∈ store, approvedMatch wsId agId reqId now r = true) ∧
      ((approvalGate .ALLOW reason signals rules store wsId agId tool action resource
            metadata (some reqId) requestedBy now freshId).decision = .ALLOW →
        (approvalGate .ALLOW reason signals rules store wsId agId tool action resource
            metadata (some reqId) requestedBy now freshId).reason = reason ∧
        (approvalGate .ALLOW reason signals rules store wsId agId tool action resource
            metadata (some reqId) requestedBy now freshId).signals
          = signals ++ ["human_approval_consumed"] ∧
        ∀ q ∈ (approvalGate .ALLOW reason signals rules store wsId agId tool action resource
            metadata (some reqId) requestedBy now freshId).store,
          q.id = reqId → q.consumedAt = some now)) ∧
    (∀ (store : ApprovalStore) (ops : List ApprovalOp) (reason : String)
        (signals : List String) (rules : PolicyRules) (wsId agId tool action : String)
        (resource : Option String) (metadata : List (String × Jv))
        (requestedBy : Option String) (reqId : String) (now : ℤ) (freshId : String),
      (∀ q ∈ store, q.id = reqId → q.consumedAt ≠ none) →
      (∀ op ∈ ops, reqId ∉ opNewIds op) →
      requiresHumanApproval action rules = true →
      (approvalGate .ALLOW reason signals rules (applyOps store ops) wsId agId tool action
          resource metadata (some reqId) requestedBy now freshId).decision = .BLOCK ∧
      (approvalGate .ALLOW reason signals rules (applyOps store ops) wsId agId tool action
          resource metadata (some reqId) requestedBy now freshId).reason
        = "approval_required") := by
  constructor
  · intro store reason signals rules wsId agId tool action resource metadata requestedBy
      reqId now freshId hreq
    cases hfind : findApproved store wsId agId reqId now with
    | none =>
        have hblock := approvalGate_block_of_none reason signals rules store wsId agId tool
          action resource metadata (some reqId) requestedBy now freshId hreq hfind
        rw [hblock]
        constructor
        · constructor
          · intro h
            cases h
          · rintro ⟨r, hr, hmatch⟩
            have : findApproved store wsId agId reqId now ≠ none := by
              unfold findApproved
              intro hcontra
              exact (List.find?_eq_none.mp hcontra r hr) hmatch
            exact absurd hfind this
        · intro h
          cases h
    | some rr =>
        have hsome : approvalGate .ALLOW reason signals rules store wsId agId tool action
            resource metadata (some reqId) requestedBy now freshId
            = ⟨.ALLOW, reason, signals ++ ["human_approval_consumed"], none,
                store.map fun q => if q.id == rr.id then { q with consumedAt := some now }
                  else q⟩ := by
          unfold approvalGate
          rw [if_pos ⟨rfl, hreq⟩]
          dsimp only
          rw [hfind]
        rw [hsome]
        have hrmem := List.mem_of_find?_eq_some hfind
        have hrmatch : approvedMatch wsId agId reqId now rr = true :=
          List.find?_some hfind
        have hrid : rr.id = reqId := (approvedMatch_fields hrmatch).1
        refine ⟨⟨fun _ => ⟨rr, hrmem, hrmatch⟩, fun _ => rfl⟩, fun _ => ⟨rfl, rfl, ?_⟩⟩
        intro q hq hqid
        rcases List.mem_map.mp hq with ⟨q0, hq0, hspec⟩
        by_cases hid : q0.id == rr.id
        · rw [if_pos hid] at hspec
          rw [← hspec]
        · rw [if_neg hid] at hspec
          exfalso
          apply hid
          rw [hspec]
          rw [hqid, hrid]
          exact beq_self_eq_true reqId
  · intro store ops reason signals rules wsId agId tool action resource metadata requestedBy
      reqId now freshId hinv hfresh hreq
    have hall := consumedAt_preserved_ops reqId store ops hinv hfresh
    have hfind : findApproved (applyOps store ops) wsId agId reqId now = none := by
      apply findApproved_none_of_all_fail
      intro r hr hid hmatch
      exact (hall r hr hid) (approvedMatch_fields hmatch).2.2.2.2.1
    rw [approvalGate_block_of_none reason signals rules (applyOps store ops) wsId agId tool
      action resource metadata (some reqId) requestedBy now freshId hreq hfind]
    exact ⟨rfl, rfl⟩

/-- C4 instantiated: a store holding one approved, unexpired request `r1`;
part one consumes it at time 500, part two shows that after an `approve`
operation on an already-consumed store a second evaluation bearing `r1`
blocks. -/
theorem C4_single_use_consumption_witness :
    requiresHumanApproval "delete" ⟨.BALANCED, [], [], [], [], []⟩ = true ∧
      ((approvalGate .ALLOW "ok" [] ⟨.BALANCED, [], [], [], [], []⟩
            [{ id := "r1", workspaceId := "w", agentId := "a", tool := "t",
               action := "delete", resource := none, metadata := [], status := .APPROVED,
               riskScore := none, requestedBy := "u", expiresAt := 1000, consumedAt := none,
               resolvedByUserId := none, resolvedAt := none, resolutionNote := none }]
            "w" "a" "t" "delete" none [] (some "r1") none 500 "f1").decision = .ALLOW ↔
        ∃ r, r ∈ [({
            id := "r1", workspaceId := "w", agentId := "a", tool := "t",
            action := "delete", resource := none, metadata := [], status := .APPROVED,
            riskScore := none, requestedBy := "u", expiresAt := 1000, consumedAt := none,
            resolvedByUserId := none, resolvedAt := none,
            resolutionNote := none } : ApprovalRequest)] ∧
          approvedMatch "w" "a" "r1" 500 r = true) ∧
      (approvalGate .ALLOW "ok" [] ⟨.BALANCED, [], [], [], [], []⟩
          (applyOps
            [{ id := "r1", workspaceId := "w", agentId := "a", tool := "t",
               action := "delete", resource := none, metadata := [], status := .APPROVED,
               riskScore := none, requestedBy := "u", expiresAt := 1000,
               consumedAt := some 500, resolvedByUserId := none, resolvedAt := none,
               resolutionNote := none }]
            [.approve "r1" "u2" none 600])
          "w" "a" "t" "delete" none [] (some "r1") none 700 "f2").decision = .BLOCK :=
  ⟨by decide,
    (C4_single_use_consumption.1 _ "ok" [] ⟨.BALANCED, [], [], [], [], []⟩ "w" "a" "t"
        "delete" none [] none "r1" 500 "f1" (by decide)).1,
    (C4_single_use_consumption.2 _ [.approve "r1" "u2" none 600] "ok" []
        ⟨.BALANCED, [], [], [], [], []⟩ "w" "a" "t" "delete" none [] none "r1" 700 "f2"
        (by decide) (by decide) (by decide)).1⟩

/-- C10: the high-risk signal and the approval requirement lower-case the
action before the vocabulary test, while the deny/allow membership tests are
case-sensitive — so action `DELETE` with `deny_actions = ["delete"]` carries
`high_risk_action` and requires approval, yet is not blocked by the deny rule. -/
theorem C10_case_asymmetry :
    (∀ (rules : PolicyRules) (ctx : PolicyEvaluationContext),
      "high_risk_action" ∈ (evaluatePolicy rules ctx).signals ↔
        HIGH_RISK_ACTIONS.contains (jsToLower ctx.action) = true) ∧
    (∀ (action : String) (rules : PolicyRules),
      HIGH_RISK_ACTIONS.contains (jsToLower action) = true →
        requiresHumanApproval action rules = true) ∧
    ((⟨.BALANCED, [], ["delete"], [], [], []⟩ : PolicyRules).deny_actions.contains "delete"
        = true) ∧
    (evaluatePolicy ⟨.BALANCED, [], ["delete"], [], [], []⟩ ⟨"crm", "DELETE", none, none⟩
        = ⟨.ALLOW, "allowed_by_policy_engine", ["high_risk_action"]⟩) ∧
    (requiresHumanApproval "DELETE" ⟨.BALANCED, [], ["delete"], [], [], []⟩ = true) := by
  refine ⟨?_, ?_, by decide, by decide, by decide⟩
  · intro rules ctx
    rw [evaluatePolicy_signals]
    by_cases hc : HIGH_RISK_ACTIONS.contains (jsToLower ctx.action) = true
    · rw [if_pos hc]
      simp only [List.cons_append, List.mem_cons, true_or, true_iff]
      exact hc
    · rw [if_neg hc]
      simp only [List.nil_append]
      constructor
      · intro hmem
        exfalso
        rcases List.mem_append.mp hmem with h2 | h3
        · exact absurd h2 (not_mem_ite_singleton (by decide) _)
        · cases hb : ctx.burstRate with
          | none => rw [hb] at h3; cases h3
          | some b =>
              rw [hb] at h3
              exact absurd h3 (not_mem_ite_singleton (by decide) _)
      · intro h
        exact absurd h hc
  · intro action rules h
    unfold requiresHumanApproval
    simp only [Bool.or_eq_true]
    exact Or.inl h

/-- C10 instantiated at action `DELETE`. -/
theorem C10_case_asymmetry_witness :
    HIGH_RISK_ACTIONS.contains (jsToLower "DELETE") = true ∧
      ("high_risk_action" ∈
          (evaluatePolicy ⟨.BALANCED, [], ["delete"], [], [], []⟩
            ⟨"crm", "DELETE", none, none⟩).signals ↔
        HIGH_RISK_ACTIONS.contains (jsToLower "DELETE") = true) ∧
      requiresHumanApproval "DELETE" ⟨.STRICT, [], [], [], [], []⟩ = true :=
  ⟨by decide, C10_case_asymmetry.1 ⟨.BALANCED, [], ["delete"], [], [], []⟩
      ⟨"crm", "DELETE", none, none⟩,
    C10_case_asymmetry.2.1 "DELETE" ⟨.STRICT, [], [], [], [], []⟩ (by decide)⟩

theorem string_append_left_cancel {p a b : String} (h : p ++ a = p ++ b) : a = b := by
  have hd : p.data ++ a.data = p.data ++ b.data := congrArg String.data h
  have hab := List.append_cancel_left hd
  cases a with
  | mk d1 =>
      cases b with
      | mk d2 => exact congrArg String.mk hab

/-- C3: `computeEventHash` is a pure function of `prevHash` and the payload's
key-value content. (i) Two payloads that are equal as key-value maps (arrays
in order, object key order ignored, keys unique per object level) hash
identically. (ii) Two payloads that differ as key-value maps get different
hashes, unless the two canonical preimage strings form a SHA-256 collision —
canonicalization itself is proved injective up to key order, so the hashed
preimages are guaranteed distinct. -/
theorem C3_hash_canonicalization :
    (∀ (prevHash : String) (p q : Jv), jvWF p = true → koeq p q = true →
        computeEventHash prevHash p = computeEventHash prevHash q) ∧
    (∀ (prevHash : String) (p q : Jv), jvWF p = true → jvWF q = true →
        koeq p q = false →
        computeEventHash prevHash p ≠ computeEventHash prevHash q ∨
          Sha256Collision (prevHash ++ canonicalize p) (prevHash ++ canonicalize q)) := by
  constructor
  · intro prevHash p q hwf hk
    have hs : sortObject p = sortObject q := koeq_sortObject p q hwf hk
    unfold computeEventHash canonicalize
    rw [hs]
  · intro prevHash p q hwfp hwfq hk
    by_cases hh : Sha256.sha256Hex (prevHash ++ canonicalize p)
        = Sha256.sha256Hex (prevHash ++ canonicalize q)
    · right
      refine ⟨?_, hh⟩
      intro habs
      have hc : canonicalize p = canonicalize q := string_append_left_cancel habs
      have hs : sortObject p = sortObject q := canonicalize_inj hc
      have hko := sortObject_koeq p q hwfp hwfq hs
      rw [hk] at hko
      exact absurd hko (by decide)
    · left
      exact hh

/-- C3 instantiated: reordering two fields keeps the hash; changing a field
value changes it (or exhibits a SHA-256 collision). -/
theorem C3_hash_canonicalization_witness :
    computeEventHash "GENESIS" (Jv.obj [("b", Jv.num 1), ("a", Jv.str "x")])
        = computeEventHash "GENESIS" (Jv.obj [("a", Jv.str "x"), ("b", Jv.num 1)]) ∧
      (computeEventHash "GENESIS" (Jv.obj [("b", Jv.num 1), ("a", Jv.str "x")])
          ≠ computeEventHash "GENESIS" (Jv.obj [("b", Jv.num 2), ("a", Jv.str "x")]) ∨
        Sha256Collision
          ("GENESIS" ++ canonicalize (Jv.obj [("b", Jv.num 1), ("a", Jv.str "x")]))
          ("GENESIS" ++ canonicalize (Jv.obj [("b", Jv.num 2), ("a", Jv.str "x")]))) :=
  ⟨C3_hash_canonicalization.1 "GENESIS" _ _ (by decide) (by decide),
    C3_hash_canonicalization.2 "GENESIS" _ _ (by decide) (by decide) (by decide)⟩

end AgentGuard
